import Mathlib

/-!
Verification development for the compiler core in `src/src/compiler.rs` of the
`minimal_language` repository: a single-pass recursive-descent parser and LLVM IR
code generator.  The Rust source is embedded shallowly: every `compile_*` function
of `compiler.rs` becomes a Lean function over an explicit state (token cursor plus
an explicit model of the LLVM module being built), with a fuel parameter making the
recursion structural.  Rust `Result` propagation (`?`) becomes the `ok`/`err` cases
of `Res`; Rust process aborts (`panic!`, `unwrap`, `expect`, `unreachable!`,
`unimplemented!`) become the `abort` case; fuel exhaustion is the separate `div`
case so that it can never be mistaken for either.
-/

/-- Modelled from the spec: number literal payloads (spec section 3, `LiteralValue`).
The lexer module `src/tokens/tokens.rs` is not part of the provided sources; the
spec states that integer literals carry an `i128` value and float literals an `f64`.
The float payload is irrelevant here (floats are an unimplemented abort path in
`compile_literal`), so it is omitted. -/
inductive NumLit where
  | Integer (i : Int)
  | Float
deriving DecidableEq

/-- Modelled from the spec: literal values (spec section 3, `LiteralValue`):
`String(text)`, `Char(codepoint)`, `Number(..)`, `Bool(bit)`.  The constructor
names are lowercased to avoid clashing with the Lean builtin types. -/
inductive Lit where
  | str (s : String)
  | chr (c : Char)
  | num (n : NumLit)
  | boolean (b : Bool)
deriving DecidableEq

/-- Modelled from the spec: token kinds (spec section 3): `Ident(text)`,
`Literal(LiteralValue)` and `Particle(ch, joined_to_next)`. -/
inductive TokenType where
  | Ident (s : String)
  | Literal (l : Lit)
  | Particle (c : Char) (joined : Bool)
deriving DecidableEq

/-- Modelled from the spec: a token is a kind plus a source span (spec sections 3
and 6).  The span is abstracted to a single natural number, which is all the
compiler core does with it (it is only threaded into diagnostics). -/
structure Token where
  tt : TokenType
  loc : Nat
deriving DecidableEq

/-- Modelled from the spec: the structured error kinds of `ParseET`
(`src/source.rs` is not part of the provided sources).  Only the variants that
`compiler.rs` constructs are modelled, plus an end-of-stream error for the token
cursor (spec section 4.1: `peek()` fails with `UnexpectedEOF` past the end). -/
inductive ParseET where
  | ParseError (expected found : String)
  | VariableError (name : String)
  | UnexpectedEOF
deriving DecidableEq

/-- Modelled from the spec: a structured error, an error kind optionally carrying
a source span (`ParseET::at` attaches one, `ParseET::error` does not). -/
structure ParseErr where
  et : ParseET
  loc : Option Nat
deriving DecidableEq

/-- Models Rust `ParseET::at(loc)`. -/
def ParseET.atLoc (e : ParseET) (l : Nat) : ParseErr := ⟨e, some l⟩

/-- Models Rust `ParseET::error()` (no span), used by `ty_str_to_ty`. -/
def ParseET.toErr (e : ParseET) : ParseErr := ⟨e, none⟩

/-- Outcome of running a piece of the compiler: normal result, structured error
(the `Err` side of the Rust `Result`), process abort (Rust `panic!` / `unwrap` /
`expect` / `unreachable!` / `unimplemented!`), or out of fuel. -/
inductive Res (α : Type) where
  | ok (a : α)
  | err (e : ParseErr)
  | abort (msg : String)
  | div
deriving DecidableEq

/-- Sequencing for `Res`: errors, aborts and fuel exhaustion all propagate,
mirroring how `?` propagates `Err` and how a Rust panic unwinds. -/
def Res.bind {α β : Type} (x : Res α) (f : α → Res β) : Res β :=
  match x with
  | .ok a => f a
  | .err e => .err e
  | .abort m => .abort m
  | .div => .div

instance : Monad Res where
  pure := Res.ok
  bind := Res.bind

/-- Projection used to state concrete evaluations compactly. -/
def Res.toOption {α : Type} : Res α → Option α
  | .ok a => some a
  | _ => none

/-- List surgery helper: apply `f` to the element at index `n` (identity out of
range).  Used to model in-place mutation of a function or basic block through the
LLVM builder handles. -/
def modAt {α : Type} : List α → Nat → (α → α) → List α
  | [], _, _ => []
  | a :: l, 0, f => f a :: l
  | a :: l, n + 1, f => a :: modAt l n f

/-- LLVM IR types as produced by `ty_str_to_ty` and `LLVMFunctionType`:
`void`, `i1` (bool), `i8`, `i32`, `i64`, `i128`, `ptr` (always pointer to i8), and
function types (return type, parameter types, vararg flag). -/
inductive IRType where
  | void
  | i1
  | i8
  | i32
  | i64
  | i128
  | ptr
  | fnty (ret : IRType) (params : List IRType) (vararg : Bool)

/-- Bit width of the integer types, used by the model of `LLVMConstInt`.
`compile_literal` only ever applies `LLVMConstInt` to the integer types produced
by `ty_str_to_ty`; the value for non-integer types is arbitrary (64). -/
def IRType.width : IRType → Nat
  | .i1 => 1
  | .i8 => 8
  | .i32 => 32
  | .i64 => 64
  | .i128 => 128
  | _ => 64

/-- The signed comparison predicates of `LLVMIntPredicate` used by the source. -/
inductive IPred where
  | sgt
  | sge
  | slt
  | sle
  | eq
  | ne

/-- LLVM values (`LLVMValueRef` handles): integer constants, module-level string
globals, functions, function parameters, and instruction results.  Handles are
identified by the order of their creation. -/
inductive Value where
  | constInt (ty : IRType) (v : Nat)
  | globalStr (id : Nat)
  | func (idx : Nat)
  | param (fnIdx : Nat) (i : Nat)
  | instr (id : Nat)

/-- The IR instructions emitted by `compiler.rs` through the LLVM builder.
Branch targets are basic-block indices within the enclosing function.  The
symbolic result names passed as the last C argument of the build calls are
dropped: they have no semantic effect (spec section 4.5.1). -/
inductive Instr where
  | add (a b : Value)
  | sub (a b : Value)
  | mul (a b : Value)
  | sdiv (a b : Value)
  | band (a b : Value)
  | bor (a b : Value)
  | icmp (p : IPred) (a b : Value)
  | call (fty : IRType) (f : Value) (args : List Value)
  | ret (v : Value)
  | retVoid
  | br (target : Nat)
  | condbr (c : Value) (t e : Nat)
  | alloca (ty : IRType)
  | store (v : Value) (slot : Value)
  | load (ty : IRType) (slot : Value)

/-- A basic block: its name and its instructions, each tagged with the id of the
value it produces. -/
structure BB where
  name : String
  instrs : List (Nat × Instr)

/-- An IR function: assigned name (after symbol-table uniquing), type, blocks.
A declaration (`extern`) has no blocks. -/
structure IRFunc where
  name : String
  ty : IRType
  blocks : List BB

/-- The LLVM module being built: name, functions in order of addition, string
globals, and the counter supplying fresh value ids. -/
structure IRModule where
  name : String
  funcs : List IRFunc
  globals : List (Nat × String × String)
  nextId : Nat

/-- Compiler state: the token stream with the cursor position (`TokIter` with its
`index`, spec section 4.1), and the module being built. -/
structure St where
  toks : List Token
  idx : Nat
  m : IRModule

/-- Models `TokIter::this()`: peek at the current token, `UnexpectedEOF` past the
end (spec section 4.1). -/
def St.this (s : St) : Res Token :=
  match s.toks[s.idx]? with
  | some t => .ok t
  | none => .err (ParseET.UnexpectedEOF.toErr)

/-- Models `TokIter::next()`: advance the cursor. -/
def St.next (s : St) : St := { s with idx := s.idx + 1 }

/-- Models `tokens.index -= 1` (rewind by one).  Truncated at zero. -/
def St.rewind (s : St) : St := { s with idx := s.idx - 1 }

/-- The in-place update of one function performed by the builder when emitting:
append the instruction (with its fresh id) to the block at the insertion point. -/
def emitFnUpd (pos : Nat × Nat) (id : Nat) (ins : Instr) (fn : IRFunc) : IRFunc :=
  { fn with blocks := modAt fn.blocks pos.2 (fun bb =>
      { bb with instrs := bb.instrs ++ [(id, ins)] }) }

/-- Models the LLVM builder emitting one instruction at the current insertion
point `pos = (function index, block index)`: the instruction is appended to that
block and receives a fresh value id. -/
def St.emit (s : St) (pos : Nat × Nat) (ins : Instr) : Value × St :=
  let id := s.m.nextId
  let fs := modAt s.m.funcs pos.1 (emitFnUpd pos id ins)
  (Value.instr id, { s with m := { s.m with nextId := id + 1, funcs := fs } })

/-- Models `LLVMAppendBasicBlock`: append an empty block to function `f`, and
return its index. -/
def St.appendBB (s : St) (f : Nat) (bn : String) : Nat × St :=
  let n := match s.m.funcs[f]? with
    | some fn => fn.blocks.length
    | none => 0
  let fs := modAt s.m.funcs f (fun fn => { fn with blocks := fn.blocks ++ [⟨bn, []⟩] })
  (n, { s with m := { s.m with funcs := fs } })

/-- Models `LLVMBuildGlobalString`: define a module-level string constant and
return a pointer value for it. -/
def St.buildGlobalString (s : St) (content gname : String) : Value × St :=
  let id := s.m.nextId
  let gs := s.m.globals ++ [(id, gname, content)]
  (Value.globalStr id, { s with m := { s.m with nextId := id + 1, globals := gs } })

/-- Models `LLVMAddFunction`, including the LLVM symbol-table behaviour on name
collision: a function added under a name that is already taken is assigned a
fresh suffixed name (LLVM appends a numeric suffix; the fresh-id counter supplies
it here).  Returns the index of the new function. -/
def St.addFunction (s : St) (nm : String) (ty : IRType) : Nat × St :=
  let used := s.m.funcs.map (fun f => f.name)
  let unm := if nm ∈ used then nm ++ "." ++ toString s.m.nextId else nm
  let fs := s.m.funcs ++ [⟨unm, ty, []⟩]
  (s.m.funcs.length, { s with m := { s.m with nextId := s.m.nextId + 1, funcs := fs } })

/-- The two-level symbol environment entry: `(ir_type, ir_value, is_addressable)`
(spec section 3). -/
abbrev VMap := List (String × (IRType × Value × Bool))

/-- `HashMap::get`, observing the most recent insertion of a key. -/
def vmLookup (vm : VMap) (k : String) : Option (IRType × Value × Bool) :=
  match vm.find? (fun p => p.1 == k) with
  | some p => some p.2
  | none => none

/-- `HashMap::insert` modelled as shadowing prepend (lookup-equivalent). -/
def vmInsert (k : String) (v : IRType × Value × Bool) (vm : VMap) : VMap :=
  (k, v) :: vm

/-- Models `get_var` (compiler.rs line 80): local map first, then global, else a
`VariableError` at the given span. -/
def getVar (name : String) (loc : Nat) (varmap lmap : VMap) :
    Res (IRType × Value × Bool) :=
  match vmLookup lmap name with
  | some t => .ok t
  | none =>
    match vmLookup varmap name with
    | some t => .ok t
    | none => .err ((ParseET.VariableError name).atLoc loc)

/-- Rendering of a token kind into the `found` slot of a diagnostic, standing in
for the Rust `format!` with the `Debug` formatter.  The exact text is irrelevant
to every claim. -/
def ttDesc : TokenType → String
  | .Ident s => "Ident(" ++ s ++ ")"
  | .Literal _ => "Literal(..)"
  | .Particle c j =>
      "Particle(" ++ String.singleton c ++ ", " ++ (if j then "true" else "false") ++ ")"

/-- Models the `ident_next!` macro: the current token must be an identifier; it is
consumed and returned.  Any other token (or end of stream) is an error. -/
def identNext (s : St) (expected : String) : Res (String × St) :=
  match s.this with
  | .ok tok =>
    match tok.tt with
    | .Ident id => .ok (id, s.next)
    | tt => .err ((ParseET.ParseError expected (ttDesc tt)).atLoc tok.loc)
  | .err e => .err e
  | .abort m => .abort m
  | .div => .div

/-- Models the `expect_ident!` macro: the current token must be the identifier
`expected`; it is consumed. -/
def expectIdent (s : St) (expected : String) : Res St :=
  match s.this with
  | .ok tok =>
    match tok.tt with
    | .Ident id =>
      if id = expected then .ok s.next
      else .err ((ParseET.ParseError expected id).atLoc tok.loc)
    | tt => .err ((ParseET.ParseError expected (ttDesc tt)).atLoc tok.loc)
  | .err e => .err e
  | .abort m => .abort m
  | .div => .div

/-- Models `ty_str_to_ty` (compiler.rs line 160). -/
def tyStrToTy (ty : String) : Res IRType :=
  match ty with
  | "void" => .ok .void
  | "bool" => .ok .i1
  | "ptr" => .ok .ptr
  | "i8" => .ok .i8
  | "i32" => .ok .i32
  | "i64" => .ok .i64
  | "i128" => .ok .i128
  | _ => .err ((ParseET.ParseError "valid type" ty).toErr)

/-- The Rust cast `i as c_ulonglong` applied to the `i128` payload of an integer
literal: two-complement truncation to 64 bits. -/
def intAsU64 (i : Int) : Nat := (i % (2 ^ (64 : Nat) : Int)).toNat

/-- Models `LLVMConstInt(ty, v, 0)`: the 64-bit argument is truncated or
zero-extended into the width of the requested integer type. -/
def llvmConstInt (ty : IRType) (v : Nat) : Value :=
  Value.constInt ty (v % 2 ^ ty.width)

/-- Models `compile_literal` (compiler.rs line 432): `literal <type> <literal>`.
An integer literal is lowered with `LLVMConstInt(ty, i as c_ulonglong, 0)` — note
the 64-bit cast of the `i128` payload.  A bool ignores the requested type and uses
`i1`.  A string becomes a module-level global.  Char and float literals abort
(`unimplemented!`), and a non-literal token after the type aborts (`panic!`). -/
def compileLiteral (s : St) (pos : Nat × Nat) (varmap lmap : VMap) :
    Res (Value × St) := do
  let p ← identNext s "type"
  let ty ← tyStrToTy p.1
  let tok ← p.2.this
  match tok.tt with
  | .Literal lit =>
    let s1 := p.2.next
    match lit with
    | .str str =>
      let r := s1.buildGlobalString str ""
      pure (r.1, r.2)
    | .chr _ => .abort "not implemented"
    | .num n =>
      match n with
      | .Float => .abort "not implemented"
      | .Integer i => pure (llvmConstInt ty (intAsU64 i), s1)
    | .boolean b => pure (llvmConstInt .i1 (if b then 1 else 0), s1)
  | _ => .abort "literal value is not a literal value"

/-- Models the particle-coalescing loop of `compile_fn_call` (compiler.rs lines
384-387): keep appending particle characters while the current token is a
particle whose joined flag is set. -/
def particleLoop (fuel : Nat) (s : St) (acc : String) : Res (String × St) :=
  match fuel with
  | 0 => .div
  | fuel + 1 => do
    let tok ← s.this
    match tok.tt with
    | .Particle p true => particleLoop fuel s.next (acc.push p)
    | _ => pure (acc, s)

/-- Models the operator lowering table of `compile_fn_call` (compiler.rs lines
408-422).  An unknown operator string is `unreachable!`, an abort. -/
def opInstr (name : String) (a b : Value) : Res Instr :=
  match name with
  | "+" => .ok (.add a b)
  | "-" => .ok (.sub a b)
  | "*" => .ok (.mul a b)
  | "/" => .ok (.sdiv a b)
  | "&" => .ok (.band a b)
  | "|" => .ok (.bor a b)
  | ">" => .ok (.icmp .sgt a b)
  | ">=" => .ok (.icmp .sge a b)
  | "<" => .ok (.icmp .slt a b)
  | "<=" => .ok (.icmp .sle a b)
  | "==" => .ok (.icmp .eq a b)
  | "!=" => .ok (.icmp .ne a b)
  | c => .abort ("unknown literal func " ++ c)

/-- Models the callee read of `compile_fn_call` (compiler.rs lines 380-391): a
particle starts a coalesced operator string (consuming from the token after it),
anything else must be an identifier. -/
def fnCallName (fuel : Nat) (s : St) (tt : TokenType) : Res (String × St) :=
  match tt with
  | .Particle p _ => particleLoop fuel s.next (String.singleton p)
  | _ => identNext s "name"

/-- Models the lowering tail of `compile_fn_call` (compiler.rs lines 404-428),
dispatching on the kind of the saved callee token `tt`.  Operator form: pop the
last argument as the right operand and the one before it as the left operand —
each pop of an empty list is an abort (`expect`) — and emit the operator
instruction.  Named form: resolve the callee (the span read from the current
token can itself fail at end of stream) and emit a call with the callee symbol
recorded function type. -/
def fnCallLower (ar : List Value × St) (pos : Nat × Nat) (varmap lmap : VMap)
    (tt : TokenType) (name : String) : Res (Value × St) :=
  match tt with
  | .Particle _ _ =>
    match ar.1.getLast? with
    | none => .abort ("no arg 1 for bin op " ++ name)
    | some b =>
      match ar.1.dropLast.getLast? with
      | none => .abort ("no arg 2 for binary op " ++ name)
      | some a => do
        let ins ← opInstr name a b
        let r := ar.2.emit pos ins
        pure (r.1, r.2)
  | _ => do
    let tok2 ← ar.2.this
    let fv ← getVar name tok2.loc varmap lmap
    let r := ar.2.emit pos (.call fv.1 fv.2.1 ar.1)
    pure (r.1, r.2)

mutual

/-- Models `compile_expression` (compiler.rs line 248): dispatch on the leading
identifier — `call`, `literal`, or a variable reference; an addressable variable
is read through a load, a direct one yields its stored value. -/
def compileExpression (fuel : Nat) (s : St) (pos : Nat × Nat)
    (varmap lmap : VMap) (retName : String) : Res (Value × St) :=
  match fuel with
  | 0 => .div
  | fuel + 1 => do
    let p ← identNext s "[call|literal|<variable>]"
    if p.1 = "call" then compileFnCall fuel p.2 pos varmap lmap retName
    else if p.1 = "literal" then compileLiteral p.2 pos varmap lmap
    else do
      let tok ← p.2.this
      let v ← getVar p.1 tok.loc varmap lmap
      if v.2.2 then
        let r := p.2.emit pos (.load v.1 v.2.1)
        pure (r.1, r.2)
      else pure (v.2.1, p.2)
termination_by structural fuel

/-- Models `compile_fn_call` (compiler.rs line 376): read the callee (a coalesced
particle operator or an identifier), optionally parse a `with`-argument list, then
lower (see `fnCallLower`): either an operator applied to the popped last two
arguments, or a call through the callee symbol. -/
def compileFnCall (fuel : Nat) (s : St) (pos : Nat × Nat)
    (varmap lmap : VMap) (retName : String) : Res (Value × St) :=
  match fuel with
  | 0 => .div
  | fuel + 1 => do
    let tok ← s.this
    let nm ← fnCallName fuel s tok.tt
    let q ← identNext nm.2 "[with|end]"
    let ar ←
      if q.1 = "with" then fnCallArgs fuel q.2 pos varmap lmap []
      else pure (([] : List Value), q.2)
    fnCallLower ar pos varmap lmap tok.tt nm.1
termination_by structural fuel

/-- Models the argument loop of `compile_fn_call` (compiler.rs lines 394-402):
read identifiers until `end`; anything else rewinds and parses an expression. -/
def fnCallArgs (fuel : Nat) (s : St) (pos : Nat × Nat)
    (varmap lmap : VMap) (acc : List Value) : Res (List Value × St) :=
  match fuel with
  | 0 => .div
  | fuel + 1 => do
    let p ← identNext s "[<arg>|end]"
    if p.1 ≠ "end" then do
      let v ← compileExpression fuel p.2.rewind pos varmap lmap ""
      fnCallArgs fuel v.2 pos varmap lmap (acc ++ [v.1])
    else pure (acc, p.2)
termination_by structural fuel

end

/-- Models `compile_return` (compiler.rs line 265): `return end` emits a void
return; otherwise rewind and emit a value return of the parsed expression. -/
def compileReturn (fuel : Nat) (s : St) (pos : Nat × Nat)
    (varmap lmap : VMap) : Res St := do
  let p ← identNext s "[end|<var>]"
  if p.1 = "end" then
    let r := p.2.emit pos .retVoid
    pure r.2
  else do
    let v ← compileExpression fuel p.2.rewind pos varmap lmap ""
    let r := v.2.emit pos (.ret v.1)
    pure r.2

/-- Models `compile_let_create` (compiler.rs line 454): `let <type> <name> be
<expr>`; the value is bound directly (not addressable), nothing is emitted beyond
the expression itself. -/
def compileLetCreate (fuel : Nat) (s : St) (pos : Nat × Nat)
    (varmap lmap : VMap) : Res (St × VMap) := do
  let p ← identNext s "type"
  let ty ← tyStrToTy p.1
  let q ← identNext p.2 "name"
  let s1 ← expectIdent q.2 "be"
  let v ← compileExpression fuel s1 pos varmap lmap q.1
  pure (v.2, vmInsert q.1 (ty, v.1, false) lmap)

/-- Models `compile_var_create` (compiler.rs line 465): `var <type> <name> is
<expr>`; emits an alloca then a store, and binds the name addressable to the
stack-slot value. -/
def compileVarCreate (fuel : Nat) (s : St) (pos : Nat × Nat)
    (varmap lmap : VMap) : Res (St × VMap) := do
  let p ← identNext s "type"
  let ty ← tyStrToTy p.1
  let q ← identNext p.2 "name"
  let s1 ← expectIdent q.2 "is"
  let v ← compileExpression fuel s1 pos varmap lmap q.1
  let ra := v.2.emit pos (.alloca ty)
  let rs := ra.2.emit pos (.store v.1 ra.1)
  pure (rs.2, vmInsert q.1 (ty, ra.1, true) lmap)

/-- Models `compile_var_update` (compiler.rs line 481): `update <name> to <expr>`;
resolves the name (the addressable flag is not checked, mirroring the source) and
stores the new value into the resolved value. -/
def compileVarUpdate (fuel : Nat) (s : St) (pos : Nat × Nat)
    (varmap lmap : VMap) : Res (St × VMap) := do
  let p ← identNext s "name"
  let tok ← p.2.this
  let entry ← getVar p.1 tok.loc varmap lmap
  let s1 ← expectIdent p.2 "to"
  let v ← compileExpression fuel s1 pos varmap lmap p.1
  let r := v.2.emit pos (.store v.1 entry.2.1)
  pure (r.2, lmap)

mutual

/-- Models `compile_statement` (compiler.rs line 230): dispatch on the leading
identifier; only `return` reports `true` (diverges), every other statement —
including `if` and `while` — reports `false`. -/
def compileStatement (fuel : Nat) (s : St) (pos : Nat × Nat) (func : Nat)
    (varmap lmap : VMap) : Res (Bool × St × (Nat × Nat) × VMap) :=
  match fuel with
  | 0 => .div
  | fuel + 1 => do
    let p ← identNext s "[let|<expr>]"
    if p.1 = "var" then do
      let r ← compileVarCreate fuel p.2 pos varmap lmap
      pure (false, r.1, pos, r.2)
    else if p.1 = "update" then do
      let r ← compileVarUpdate fuel p.2 pos varmap lmap
      pure (false, r.1, pos, r.2)
    else if p.1 = "let" then do
      let r ← compileLetCreate fuel p.2 pos varmap lmap
      pure (false, r.1, pos, r.2)
    else if p.1 = "return" then do
      let r ← compileReturn fuel p.2 pos varmap lmap
      pure (true, r, pos, lmap)
    else if p.1 = "if" then do
      let r ← compileIf fuel p.2 pos func varmap lmap
      pure (false, r.1, r.2, lmap)
    else if p.1 = "while" then do
      let r ← compileWhile fuel p.2 pos func varmap lmap
      pure (false, r.1, r.2, lmap)
    else do
      let v ← compileExpression fuel p.2.rewind pos varmap lmap ""
      pure (false, v.2, pos, lmap)
termination_by structural fuel

/-- Models the then-arm loop of `compile_if` (compiler.rs lines 332-340): compile
statements until the lookahead identifier is `end`, `else` or `elif`, tracking
whether any statement diverged. -/
def ifThenLoop (fuel : Nat) (s : St) (pos : Nat × Nat) (func : Nat)
    (varmap lmap : VMap) (dr : Bool) : Res (Bool × St × (Nat × Nat) × VMap) :=
  match fuel with
  | 0 => .div
  | fuel + 1 => do
    let p ← identNext s "[end|else|elif]"
    let s1 := p.2.rewind
    if p.1 = "end" ∨ p.1 = "else" ∨ p.1 = "elif" then pure (dr, s1, pos, lmap)
    else do
      let r ← compileStatement fuel s1 pos func varmap lmap
      ifThenLoop fuel r.2.1 r.2.2.1 func varmap r.2.2.2 (dr || r.1)
termination_by structural fuel

/-- Models the statement loops that stop only at `end`: the else-arm loop of
`compile_if` (compiler.rs lines 355-363) and the body loop of `compile_while`
(compiler.rs lines 298-306). -/
def stmtsUntilEnd (fuel : Nat) (s : St) (pos : Nat × Nat) (func : Nat)
    (varmap lmap : VMap) (dr : Bool) : Res (Bool × St × (Nat × Nat) × VMap) :=
  match fuel with
  | 0 => .div
  | fuel + 1 => do
    let p ← identNext s "end"
    let s1 := p.2.rewind
    if p.1 = "end" then pure (dr, s1, pos, lmap)
    else do
      let r ← compileStatement fuel s1 pos func varmap lmap
      stmtsUntilEnd fuel r.2.1 r.2.2.1 func varmap r.2.2.2 (dr || r.1)
termination_by structural fuel

/-- Models `compile_if` (compiler.rs line 318).  The condition is compiled in the
current block; `then`, `else` and `ifcont` blocks are appended; each arm gets a
cloned local environment; an arm that did not diverge branches to `ifcont`.  On
an `elif` continuator the nested `if` is compiled recursively into the else
block, then the cursor is rewound by one and an `end` is consumed. -/
def compileIf (fuel : Nat) (s : St) (pos : Nat × Nat) (func : Nat)
    (varmap lmap : VMap) : Res (St × (Nat × Nat)) :=
  match fuel with
  | 0 => .div
  | fuel + 1 => do
    let cond ← compileExpression fuel s pos varmap lmap ""
    let s1 ← expectIdent cond.2 "do"
    let tb := s1.appendBB func "then"
    let eb := tb.2.appendBB func "else"
    let cb := eb.2.appendBB func "ifcont"
    let s2 := (cb.2.emit pos (.condbr cond.1 tb.1 eb.1)).2
    let thenRun ← ifThenLoop fuel s2 (func, tb.1) func varmap lmap false
    let contp ← identNext thenRun.2.1 "[end|else|elif]"
    let s3 := if thenRun.1 then contp.2 else (contp.2.emit thenRun.2.2.1 (.br cb.1)).2
    let elseRes ←
      if contp.1 = "end" then pure (false, s3, (func, eb.1))
      else if contp.1 = "elif" then do
        let r ← compileIf fuel s3 (func, eb.1) func varmap lmap
        let s4 ← expectIdent r.1.rewind "end"
        pure (false, s4, r.2)
      else do
        let r ← stmtsUntilEnd fuel s3 (func, eb.1) func varmap lmap false
        let s4 ← expectIdent r.2.1 "end"
        pure (r.1, s4, r.2.2.1)
    let s5 := if elseRes.1 then elseRes.2.1
      else (elseRes.2.1.emit elseRes.2.2 (.br cb.1)).2
    pure (s5, (func, cb.1))
termination_by structural fuel

/-- Models `compile_while` (compiler.rs line 280): append `cond`, `body` and
`whilecont` blocks, branch into `cond`, compile the condition there, emit the
conditional branch, compile the body under a cloned local environment, and close
the back edge to `cond` unless the body diverged. -/
def compileWhile (fuel : Nat) (s : St) (pos : Nat × Nat) (func : Nat)
    (varmap lmap : VMap) : Res (St × (Nat × Nat)) :=
  match fuel with
  | 0 => .div
  | fuel + 1 => do
    let cb := s.appendBB func "cond"
    let bb := cb.2.appendBB func "body"
    let kb := bb.2.appendBB func "whilecont"
    let s1 := (kb.2.emit pos (.br cb.1)).2
    let cond ← compileExpression fuel s1 (func, cb.1) varmap lmap ""
    let s2 ← expectIdent cond.2 "do"
    let s3 := (s2.emit (func, cb.1) (.condbr cond.1 bb.1 kb.1)).2
    let bodyRun ← stmtsUntilEnd fuel s3 (func, bb.1) func varmap lmap false
    let s4 ← expectIdent bodyRun.2.1 "end"
    let s5 := if bodyRun.1 then s4 else (s4.emit bodyRun.2.2.1 (.br cb.1)).2
    pure (s5, (func, kb.1))
termination_by structural fuel

end

/-- Models the optional `vararg` marker check in `fn_sig` (compiler.rs lines
113-118 and 137-142): read an identifier; if it is not `vararg`, rewind. -/
def fnSigVararg (s : St) : Res (Bool × St) := do
  let p ← identNext s "<vararg?>"
  if p.1 = "vararg" then pure (true, p.2)
  else pure (false, p.2.rewind)

/-- Models the parameter-list loop of `fn_sig` (compiler.rs lines 120-127 and
144-151): read `type name` pairs; after each pair read an identifier — `do` or
`end` terminates the list, anything else is rewound and starts the next pair. -/
def fnSigArgs (fuel : Nat) (s : St) (acc : List (String × String)) :
    Res (List (String × String) × St) :=
  match fuel with
  | 0 => .div
  | fuel + 1 => do
    let p ← identNext s "[with|do|end|<type>]"
    let q ← identNext p.2 "name"
    let n ← identNext q.2 "[do|end]"
    if n.1 = "do" ∨ n.1 = "end" then pure (acc ++ [(p.1, q.1)], n.2)
    else fnSigArgs fuel n.2.rewind (acc ++ [(p.1, q.1)])

/-- Models `fn_sig` (compiler.rs line 106): parse
`fn name (return_type)? (with (vararg)? (type name)+)? (do|end)` and return
`(name, optional return type, parameters, vararg flag)`. -/
def fnSig (fuel : Nat) (s : St) :
    Res ((String × Option String × List (String × String) × Bool) × St) := do
  let s1 ← expectIdent s "fn"
  let nm ← identNext s1 "name"
  let n ← identNext nm.2 "[with|do|end|<type>]"
  if n.1 = "do" ∨ n.1 = "end" then pure ((nm.1, none, [], false), n.2)
  else if n.1 = "with" then do
    let va ← fnSigVararg n.2
    let ar ← fnSigArgs fuel va.2 []
    pure ((nm.1, none, ar.1, va.1), ar.2)
  else do
    let ty ← identNext n.2.rewind "<type>"
    let n2 ← identNext ty.2 "[with|do|end]"
    if n2.1 = "do" ∨ n2.1 = "end" then pure ((nm.1, some ty.1, [], false), n2.2)
    else if n2.1 = "with" then do
      let va ← fnSigVararg n2.2
      let ar ← fnSigArgs fuel va.2 []
      pure ((nm.1, some ty.1, ar.1, va.1), ar.2)
    else do
      let tok ← n2.2.this
      .err ((ParseET.ParseError "[with|do|end]" n2.1).atLoc tok.loc)

/-- Models the parameter-type collection of `compile_extern` (compiler.rs line
180): `ty_str_to_ty` over the parameter type keywords, propagating the first
error (`collect` over `Result` followed by `?`). -/
def collectTys : List (String × String) → Res (List IRType)
  | [] => .ok []
  | a :: rest => do
    let ty ← tyStrToTy a.1
    let l ← collectTys rest
    pure (ty :: l)

/-- Models the parameter-type loop of `compile_fn` (compiler.rs lines 197-200):
like `collectTys`, but each `ty_str_to_ty` result is `.unwrap()`ed, so a bad
parameter type aborts instead of returning the structured error. -/
def tyListUnwrap : List (String × String) → Res (List IRType)
  | [] => .ok []
  | a :: rest =>
    match tyStrToTy a.1 with
    | .ok ty => do
      let l ← tyListUnwrap rest
      pure (ty :: l)
    | .err _ => .abort "called Result::unwrap on an Err value"
    | .abort m => .abort m
    | .div => .div

/-- Models the per-parameter local bindings of `compile_fn` (compiler.rs lines
206-209): parameter `i` is bound non-addressable to `LLVMGetParam(function, i)`
with its declared type. -/
def paramMap (fIdx : Nat) : List IRType → List String → Nat → VMap → VMap
  | ty :: tys, n :: names, i, lm =>
      paramMap fIdx tys names (i + 1) (vmInsert n (ty, Value.param fIdx i, false) lm)
  | _, _, _, lm => lm

/-- The state `compile_fn` sets up before compiling the body (compiler.rs lines
192-215): the function is added to the module and registered in the global map
(before the body, allowing self-reference), the parameters are bound in a fresh
local map, and an `entry` block is appended with the builder positioned at its
end. -/
structure FnIntro where
  st : St
  fIdx : Nat
  entry : Nat
  vm : VMap
  lm : VMap

/-- Builds the `FnIntro` state for `compile_fn` (see `FnIntro`). -/
def fnIntro (s : St) (varmap : VMap) (name : String) (retTy : IRType)
    (ptys : List IRType) (vararg : Bool) (argNames : List String) : FnIntro :=
  let fty := IRType.fnty retTy ptys vararg
  let af := s.addFunction name fty
  let vm := vmInsert name (fty, Value.func af.1, false) varmap
  let lm := paramMap af.1 ptys argNames 0 []
  let eb := af.2.appendBB af.1 "entry"
  ⟨eb.2, af.1, eb.1, vm, lm⟩

/-- Models the body loop of `compile_fn` (compiler.rs lines 218-220): compile
statements while the current token is not the identifier `end`. -/
def fnBodyLoop (fuel : Nat) (s : St) (pos : Nat × Nat) (func : Nat)
    (varmap lmap : VMap) : Res (St × (Nat × Nat) × VMap) :=
  match fuel with
  | 0 => .div
  | fuel + 1 => do
    let tok ← s.this
    if tok.tt = TokenType.Ident "end" then pure (s, pos, lmap)
    else do
      let r ← compileStatement fuel s pos func varmap lmap
      fnBodyLoop fuel r.2.1 r.2.2.1 func varmap r.2.2.2

/-- Models `compile_fn` (compiler.rs line 189): parse the signature, add the
function (with the parsed vararg flag) and register it, compile the body, append
an unconditional void return when no return type was declared, and consume the
closing `end`. -/
def compileFn (fuel : Nat) (s : St) (varmap : VMap) : Res (St × VMap) := do
  let sig ← fnSig fuel s
  let retTy ← tyStrToTy (sig.1.2.1.getD "void")
  let ptys ← tyListUnwrap sig.1.2.2.1
  let fi := fnIntro sig.2 varmap sig.1.1 retTy ptys sig.1.2.2.2
    (sig.1.2.2.1.map (fun a => a.2))
  let body ← fnBodyLoop fuel fi.st (fi.fIdx, fi.entry) fi.fIdx fi.vm fi.lm
  let s1 := if sig.1.2.1 = none then (body.1.emit body.2.1 .retVoid).2 else body.1
  let s2 ← expectIdent s1 "end"
  pure (s2, fi.vm)

/-- Models `compile_extern` (compiler.rs line 175): consume `extern`, parse the
signature, add the function declaration (honouring the vararg flag) and register
it globally.  No body and no entry block. -/
def compileExtern (fuel : Nat) (s : St) (varmap : VMap) : Res (St × VMap) := do
  let s1 ← expectIdent s "extern"
  let sig ← fnSig fuel s1
  let retTy ← tyStrToTy (sig.1.2.1.getD "void")
  let ptys ← collectTys sig.1.2.2.1
  let fty := IRType.fnty retTy ptys sig.1.2.2.2
  let af := sig.2.addFunction sig.1.1 fty
  pure (af.2, vmInsert sig.1.1 (fty, Value.func af.1, false) varmap)

/-- Models `compile_global_const` (compiler.rs line 85): `const <type> <name> is
<string literal>`; only string literals are supported; the constant is defined as
a module-level global string and registered globally as pointer-to-i8.  The type
keyword is parsed but unused. -/
def compileGlobalConst (s : St) (varmap : VMap) : Res (St × VMap) := do
  let s1 ← expectIdent s "const"
  let tyq ← identNext s1 "type"
  let nmq ← identNext tyq.2 "name"
  let s2 ← expectIdent nmq.2 "is"
  let tok ← s2.this
  let val ← (
    match tok.tt with
    | .Literal lit =>
      match lit with
      | .str str => (.ok str : Res String)
      | _ =>
        .err ((ParseET.ParseError "string literal [only literal type supported]"
          "Literal(..)").atLoc tok.loc)
    | tt => .err ((ParseET.ParseError "literal" (ttDesc tt)).atLoc tok.loc))
  let s3 := s2.next
  let r := s3.buildGlobalString val nmq.1
  pure (r.2, vmInsert nmq.1 (IRType.ptr, r.1, false) varmap)

/-- Models the top-level loop of `compile` (compiler.rs lines 58-69): while the
cursor is in bounds, dispatch on the leading keyword `const` / `extern` / `fn`;
any other token is an error. -/
def compileForms (fuel : Nat) (s : St) (varmap : VMap) : Res (St × VMap) :=
  match fuel with
  | 0 => .div
  | fuel + 1 =>
    match s.this with
    | .err _ => .ok (s, varmap)
    | .ok tok =>
      (match tok.tt with
      | .Ident id =>
        if id = "const" then do
          let r ← compileGlobalConst s varmap
          compileForms fuel r.1 r.2
        else if id = "extern" then do
          let r ← compileExtern fuel s varmap
          compileForms fuel r.1 r.2
        else if id = "fn" then do
          let r ← compileFn fuel s varmap
          compileForms fuel r.1 r.2
        else .err ((ParseET.ParseError "[const|extern|fn]" id).atLoc tok.loc)
      | tt => .err ((ParseET.ParseError "keyword" (ttDesc tt)).atLoc tok.loc))
    | .abort m => .abort m
    | .div => .div

/-- The module state `compile` sets up before the top-level loop (compiler.rs
lines 43-55): a fresh module holding one function named `main` (void, no
parameters, non-vararg) with a single empty `entry` block; the builder used for
the final wrapper body sits at the end of that block, position `(0, 0)`. -/
def initModule (name : String) : IRModule :=
  ⟨name, [⟨"main", .fnty .void [] false, [⟨"entry", []⟩]⟩], [], 0⟩

/-- Initial compiler state over a token stream (cursor at zero). -/
def initSt (toks : List Token) (name : String) : St := ⟨toks, 0, initModule name⟩

/-- Models `compile` (compiler.rs line 42), returning the final module together
with the global symbol map: create the module and the `main` wrapper, run the
top-level loop, then `varmap.get("main").unwrap()` — an abort when no `main` was
registered — and emit the wrapper body: one call to the registered `main` symbol
followed by a void return. -/
def compileAux (fuel : Nat) (toks : List Token) (name : String) :
    Res (IRModule × VMap) :=
  match compileForms fuel (initSt toks name) [] with
  | .ok r =>
    match vmLookup r.2 "main" with
    | none => .abort "called Option::unwrap on a None value"
    | some f =>
      let c := r.1.emit (0, 0) (.call f.1 f.2.1 [])
      let v := c.2.emit (0, 0) .retVoid
      .ok (v.2.m, r.2)
  | .err e => .err e
  | .abort m => .abort m
  | .div => .div

/-- Models the value `compile` actually returns: the module handle alone. -/
def compile (fuel : Nat) (toks : List Token) (name : String) : Res IRModule := do
  let r ← compileAux fuel toks name
  pure r.1

/-! ### Basic lemmas about the embedding primitives -/

theorem Res.bind_eq_ok {α β : Type} {x : Res α} {f : α → Res β} {c : β} :
    x >>= f = .ok c ↔ ∃ b, x = .ok b ∧ f b = .ok c := by
  cases x <;> simp [Bind.bind, Res.bind]

theorem Res.pure_eq_ok {α : Type} {a c : α} :
    (pure a : Res α) = .ok c ↔ a = c := by
  simp [Pure.pure]

theorem St.this_ok {s : St} {tok : Token} (h : s.this = .ok tok) :
    s.toks[s.idx]? = some tok := by
  unfold St.this at h
  cases hg : s.toks[s.idx]? <;> rw [hg] at h
  · exact absurd h (by simp)
  · cases h; rfl

theorem identNext_ok {s : St} {e : String} {p : String × St}
    (h : identNext s e = .ok p) :
    (∃ l, s.toks[s.idx]? = some ⟨.Ident p.1, l⟩) ∧ p.2 = s.next := by
  unfold identNext at h
  split at h
  case _ tok hth =>
    split at h
    case _ id htt =>
      cases h
      refine ⟨⟨tok.loc, ?_⟩, rfl⟩
      rw [St.this_ok hth]
      cases tok
      simp only [Token.mk.injEq, and_true]
      simpa using htt
    case _ => exact absurd h (by simp)
  all_goals exact absurd h (by simp)

theorem expectIdent_ok {s : St} {e : String} {s1 : St}
    (h : expectIdent s e = .ok s1) :
    (∃ l, s.toks[s.idx]? = some ⟨.Ident e, l⟩) ∧ s1 = s.next := by
  unfold expectIdent at h
  split at h
  case _ tok hth =>
    split at h
    case _ id htt =>
      split at h
      case isTrue heq =>
        cases h
        refine ⟨⟨tok.loc, ?_⟩, rfl⟩
        rw [St.this_ok hth]
        cases tok
        simp only [Token.mk.injEq, and_true]
        rw [← heq]
        simpa using htt
      case isFalse => exact absurd h (by simp)
    case _ => exact absurd h (by simp)
  all_goals exact absurd h (by simp)

theorem modAt_map {α β : Type} (g : α → β) (f : α → α) (l : List α) (n : Nat)
    (hf : ∀ a, g (f a) = g a) : (modAt l n f).map g = l.map g := by
  induction l generalizing n with
  | nil => rfl
  | cons a l ih =>
    cases n with
    | zero => simp [modAt, hf]
    | succ n => simp [modAt, ih]

theorem modAt_head? {α : Type} (f : α → α) (l : List α) {n : Nat} (hn : n ≠ 0) :
    (modAt l n f).head? = l.head? := by
  cases l with
  | nil => rfl
  | cons a l => cases n with
    | zero => exact absurd rfl hn
    | succ n => rfl

/-- The name-and-type profile of the module functions: body compilation may only
grow blocks, never change this list. -/
def funcSigs (m : IRModule) : List (String × IRType) :=
  m.funcs.map (fun f => (f.name, f.ty))

/-- The instruction list of the basic block at a builder position. -/
def blockAt (s : St) (pos : Nat × Nat) : List (Nat × Instr) :=
  match s.m.funcs[pos.1]? with
  | some fn =>
    match fn.blocks[pos.2]? with
    | some bb => bb.instrs
    | none => []
  | none => []

/-- A builder position that actually denotes a block of the module. -/
def posValid (s : St) (pos : Nat × Nat) : Prop :=
  ∃ fn, s.m.funcs[pos.1]? = some fn ∧ pos.2 < fn.blocks.length

theorem emit_toks (s : St) (pos : Nat × Nat) (i : Instr) :
    (s.emit pos i).2.toks = s.toks := rfl

theorem emit_idx (s : St) (pos : Nat × Nat) (i : Instr) :
    (s.emit pos i).2.idx = s.idx := rfl

theorem emit_funcSigs (s : St) (pos : Nat × Nat) (i : Instr) :
    funcSigs (s.emit pos i).2.m = funcSigs s.m := by
  unfold St.emit funcSigs
  exact modAt_map _ _ _ _ (fun a => rfl)

theorem emit_head (s : St) (pos : Nat × Nat) (i : Instr) (h : pos.1 ≠ 0) :
    (s.emit pos i).2.m.funcs.head? = s.m.funcs.head? := by
  unfold St.emit
  exact modAt_head? _ _ h

theorem appendBB_toks (s : St) (f : Nat) (bn : String) :
    (s.appendBB f bn).2.toks = s.toks := rfl

theorem appendBB_idx (s : St) (f : Nat) (bn : String) :
    (s.appendBB f bn).2.idx = s.idx := rfl

theorem appendBB_funcSigs (s : St) (f : Nat) (bn : String) :
    funcSigs (s.appendBB f bn).2.m = funcSigs s.m := by
  unfold St.appendBB funcSigs
  exact modAt_map _ _ _ _ (fun a => rfl)

theorem appendBB_head (s : St) (f : Nat) (bn : String) (h : f ≠ 0) :
    (s.appendBB f bn).2.m.funcs.head? = s.m.funcs.head? := by
  unfold St.appendBB
  exact modAt_head? _ _ h

theorem buildGlobalString_funcs (s : St) (c g : String) :
    (s.buildGlobalString c g).2.m.funcs = s.m.funcs := rfl

theorem addFunction_funcs (s : St) (nm : String) (ty : IRType) :
    ∃ unm, (s.addFunction nm ty).2.m.funcs = s.m.funcs ++ [⟨unm, ty, []⟩] := by
  exact ⟨_, rfl⟩

theorem vmLookup_insert_self (k : String) (v : IRType × Value × Bool) (m : VMap) :
    vmLookup (vmInsert k v m) k = some v := by
  simp [vmLookup, vmInsert, List.find?]

/-! ### Frame properties: what code generation can and cannot touch

Compiling expressions and statements inside a function body leaves the token
stream list itself unchanged, never adds or removes functions, never renames or
retypes one, and — as long as the insertion point sits in a function other than
the entry wrapper (index 0) — leaves the wrapper untouched. -/

/-- Frame property of expression-level compilation from state `s` at insertion
point `pos` to state `s1`. -/
def ExprPres (s : St) (pos : Nat × Nat) (s1 : St) : Prop :=
  s1.toks = s.toks ∧ funcSigs s1.m = funcSigs s.m ∧
    (pos.1 ≠ 0 → s1.m.funcs.head? = s.m.funcs.head?)

theorem ExprPres.base (s : St) (pos : Nat × Nat) : ExprPres s pos s :=
  ⟨rfl, rfl, fun _ => rfl⟩

theorem ExprPres.comp {s s1 s2 : St} {pos : Nat × Nat}
    (h1 : ExprPres s pos s1) (h2 : ExprPres s1 pos s2) : ExprPres s pos s2 :=
  ⟨h2.1.trans h1.1, h2.2.1.trans h1.2.1, fun h => (h2.2.2 h).trans (h1.2.2 h)⟩

theorem ExprPres.of_m_eq {s s1 : St} {pos : Nat × Nat}
    (ht : s1.toks = s.toks) (hm : s1.m = s.m) : ExprPres s pos s1 :=
  ⟨ht, by rw [hm], fun _ => by rw [hm]⟩

theorem ExprPres.next (s : St) (pos : Nat × Nat) : ExprPres s pos s.next :=
  ExprPres.of_m_eq rfl rfl

theorem ExprPres.rewind (s : St) (pos : Nat × Nat) : ExprPres s pos s.rewind :=
  ExprPres.of_m_eq rfl rfl

theorem ExprPres.emit (s : St) (pos : Nat × Nat) (i : Instr) :
    ExprPres s pos (s.emit pos i).2 :=
  ⟨emit_toks s pos i, emit_funcSigs s pos i, fun h => emit_head s pos i h⟩

theorem particleLoop_frame : ∀ (fuel : Nat) (s : St) (acc : String)
    (out : String × St), particleLoop fuel s acc = .ok out →
    out.2.toks = s.toks ∧ out.2.m = s.m := by
  intro fuel
  induction fuel with
  | zero => intro s acc out h; exact absurd h (by simp [particleLoop])
  | succ n ih =>
    intro s acc out h
    simp only [particleLoop] at h
    rw [Res.bind_eq_ok] at h
    obtain ⟨tok, htok, h⟩ := h
    split at h
    case _ p =>
      obtain ⟨h1, h2⟩ := ih s.next _ _ h
      exact ⟨h1, h2⟩
    case _ =>
      rw [Res.pure_eq_ok] at h
      cases h
      exact ⟨rfl, rfl⟩

theorem compileLiteral_frame {s : St} {pos : Nat × Nat} {vm lm : VMap}
    {out : Value × St} (h : compileLiteral s pos vm lm = .ok out) :
    ExprPres s pos out.2 := by
  unfold compileLiteral at h
  rw [Res.bind_eq_ok] at h
  obtain ⟨p, hp, h⟩ := h
  rw [Res.bind_eq_ok] at h
  obtain ⟨ty, hty, h⟩ := h
  rw [Res.bind_eq_ok] at h
  obtain ⟨tok, htok, h⟩ := h
  have hpres : ExprPres s pos p.2 :=
    (identNext_ok hp).2 ▸ ExprPres.next s pos
  split at h
  case _ lit hlit =>
    split at h
    case _ str =>
      rw [Res.pure_eq_ok] at h
      cases h
      exact hpres.comp ⟨rfl, rfl, fun _ => rfl⟩
    case _ => exact absurd h (by simp)
    case _ n =>
      split at h
      case _ => exact absurd h (by simp)
      case _ i =>
        rw [Res.pure_eq_ok] at h
        cases h
        exact hpres.comp (ExprPres.next _ _)
    case _ b =>
      rw [Res.pure_eq_ok] at h
      cases h
      exact hpres.comp (ExprPres.next _ _)
  case _ => exact absurd h (by simp)

theorem fnCallName_frame {fuel : Nat} {s : St} {tt : TokenType}
    {nm : String × St} (h : fnCallName fuel s tt = .ok nm) (pos : Nat × Nat) :
    ExprPres s pos nm.2 := by
  unfold fnCallName at h
  split at h
  · obtain ⟨h1, h2⟩ := particleLoop_frame _ _ _ _ h
    exact ExprPres.of_m_eq h1 h2
  · exact (identNext_ok h).2 ▸ ExprPres.next s pos

theorem fnCallLower_frame {ar : List Value × St} {pos : Nat × Nat}
    {vm lm : VMap} {tt : TokenType} {name : String} {out : Value × St}
    (h : fnCallLower ar pos vm lm tt name = .ok out) : ExprPres ar.2 pos out.2 := by
  unfold fnCallLower at h
  split at h
  · split at h
    · exact absurd h (by simp)
    split at h
    · exact absurd h (by simp)
    · rw [Res.bind_eq_ok] at h
      obtain ⟨ins, hins, h⟩ := h
      rw [Res.pure_eq_ok] at h
      cases h
      exact ExprPres.emit _ _ _
  · rw [Res.bind_eq_ok] at h
    obtain ⟨tok2, htok2, h⟩ := h
    rw [Res.bind_eq_ok] at h
    obtain ⟨fv, hfv, h⟩ := h
    rw [Res.pure_eq_ok] at h
    cases h
    exact ExprPres.emit _ _ _

theorem exprFrameAll : ∀ (fuel : Nat),
    (∀ s pos vm lm rn out, compileExpression fuel s pos vm lm rn = .ok out →
      ExprPres s pos out.2) ∧
    (∀ s pos vm lm rn out, compileFnCall fuel s pos vm lm rn = .ok out →
      ExprPres s pos out.2) ∧
    (∀ s pos vm lm acc out, fnCallArgs fuel s pos vm lm acc = .ok out →
      ExprPres s pos out.2) := by
  intro fuel
  induction fuel with
  | zero =>
    refine ⟨?_, ?_, ?_⟩ <;> intro s pos vm lm rn out h <;>
      exact absurd h (by simp [compileExpression, compileFnCall, fnCallArgs])
  | succ n ih =>
    obtain ⟨ihE, ihC, ihA⟩ := ih
    refine ⟨?_, ?_, ?_⟩
    · -- compileExpression
      intro s pos vm lm rn out h
      simp only [compileExpression] at h
      rw [Res.bind_eq_ok] at h
      obtain ⟨p, hp, h⟩ := h
      have hstep : ExprPres s pos p.2 := (identNext_ok hp).2 ▸ ExprPres.next s pos
      split at h
      · exact hstep.comp (ihC _ _ _ _ _ _ h)
      split at h
      · exact hstep.comp (compileLiteral_frame h)
      · rw [Res.bind_eq_ok] at h
        obtain ⟨tok, htok, h⟩ := h
        rw [Res.bind_eq_ok] at h
        obtain ⟨v, hv, h⟩ := h
        split at h
        · rw [Res.pure_eq_ok] at h
          cases h
          exact hstep.comp (ExprPres.emit _ _ _)
        · rw [Res.pure_eq_ok] at h
          cases h
          exact hstep
    · -- compileFnCall
      intro s pos vm lm rn out h
      simp only [compileFnCall] at h
      rw [Res.bind_eq_ok] at h
      obtain ⟨tok, htok, h⟩ := h
      rw [Res.bind_eq_ok] at h
      obtain ⟨nm, hnm, h⟩ := h
      have hstep : ExprPres s pos nm.2 := fnCallName_frame hnm pos
      rw [Res.bind_eq_ok] at h
      obtain ⟨q, hq, h⟩ := h
      have hstep2 : ExprPres s pos q.2 :=
        hstep.comp ((identNext_ok hq).2 ▸ ExprPres.next nm.2 pos)
      split at h
      · rw [Res.bind_eq_ok] at h
        obtain ⟨ar, har, h⟩ := h
        exact ((hstep2.comp (ihA _ _ _ _ _ _ har)).comp (fnCallLower_frame h))
      · rw [Res.bind_eq_ok] at h
        obtain ⟨ar, har, h⟩ := h
        rw [Res.pure_eq_ok] at har
        cases har
        exact hstep2.comp (fnCallLower_frame h)
    · -- fnCallArgs
      intro s pos vm lm acc out h
      simp only [fnCallArgs] at h
      rw [Res.bind_eq_ok] at h
      obtain ⟨p, hp, h⟩ := h
      have hstep : ExprPres s pos p.2 := (identNext_ok hp).2 ▸ ExprPres.next s pos
      split at h
      · rw [Res.bind_eq_ok] at h
        obtain ⟨v, hv, h⟩ := h
        have hstep2 : ExprPres s pos v.2 :=
          (hstep.comp (ExprPres.rewind _ _)).comp (ihE _ _ _ _ _ _ hv)
        exact hstep2.comp (ihA _ _ _ _ _ _ h)
      · rw [Res.pure_eq_ok] at h
        cases h
        exact hstep

theorem compileExpression_frame {fuel : Nat} {s : St} {pos : Nat × Nat}
    {vm lm : VMap} {rn : String} {out : Value × St}
    (h : compileExpression fuel s pos vm lm rn = .ok out) : ExprPres s pos out.2 :=
  (exprFrameAll fuel).1 _ _ _ _ _ _ h

theorem fnCallArgs_frame {fuel : Nat} {s : St} {pos : Nat × Nat}
    {vm lm : VMap} {acc : List Value} {out : List Value × St}
    (h : fnCallArgs fuel s pos vm lm acc = .ok out) : ExprPres s pos out.2 :=
  (exprFrameAll fuel).2.2 _ _ _ _ _ _ h

theorem compileReturn_frame {fuel : Nat} {s : St} {pos : Nat × Nat}
    {vm lm : VMap} {s1 : St}
    (h : compileReturn fuel s pos vm lm = .ok s1) : ExprPres s pos s1 := by
  unfold compileReturn at h
  rw [Res.bind_eq_ok] at h
  obtain ⟨p, hp, h⟩ := h
  have hstep : ExprPres s pos p.2 := (identNext_ok hp).2 ▸ ExprPres.next s pos
  split at h
  · rw [Res.pure_eq_ok] at h
    cases h
    exact hstep.comp (ExprPres.emit _ _ _)
  · rw [Res.bind_eq_ok] at h
    obtain ⟨v, hv, h⟩ := h
    rw [Res.pure_eq_ok] at h
    cases h
    exact ((hstep.comp (ExprPres.rewind _ _)).comp
      (compileExpression_frame hv)).comp (ExprPres.emit _ _ _)

theorem compileLetCreate_frame {fuel : Nat} {s : St} {pos : Nat × Nat}
    {vm lm : VMap} {out : St × VMap}
    (h : compileLetCreate fuel s pos vm lm = .ok out) : ExprPres s pos out.1 := by
  unfold compileLetCreate at h
  rw [Res.bind_eq_ok] at h
  obtain ⟨p, hp, h⟩ := h
  rw [Res.bind_eq_ok] at h
  obtain ⟨ty, hty, h⟩ := h
  rw [Res.bind_eq_ok] at h
  obtain ⟨q, hq, h⟩ := h
  rw [Res.bind_eq_ok] at h
  obtain ⟨s1, hs1, h⟩ := h
  rw [Res.bind_eq_ok] at h
  obtain ⟨v, hv, h⟩ := h
  rw [Res.pure_eq_ok] at h
  cases h
  exact ((((identNext_ok hp).2 ▸ ExprPres.next s pos).comp
    ((identNext_ok hq).2 ▸ ExprPres.next p.2 pos)).comp
    ((expectIdent_ok hs1).2 ▸ ExprPres.next q.2 pos)).comp
    (compileExpression_frame hv)

theorem compileVarCreate_frame {fuel : Nat} {s : St} {pos : Nat × Nat}
    {vm lm : VMap} {out : St × VMap}
    (h : compileVarCreate fuel s pos vm lm = .ok out) : ExprPres s pos out.1 := by
  unfold compileVarCreate at h
  rw [Res.bind_eq_ok] at h
  obtain ⟨p, hp, h⟩ := h
  rw [Res.bind_eq_ok] at h
  obtain ⟨ty, hty, h⟩ := h
  rw [Res.bind_eq_ok] at h
  obtain ⟨q, hq, h⟩ := h
  rw [Res.bind_eq_ok] at h
  obtain ⟨s1, hs1, h⟩ := h
  rw [Res.bind_eq_ok] at h
  obtain ⟨v, hv, h⟩ := h
  rw [Res.pure_eq_ok] at h
  cases h
  exact (((((identNext_ok hp).2 ▸ ExprPres.next s pos).comp
    ((identNext_ok hq).2 ▸ ExprPres.next p.2 pos)).comp
    ((expectIdent_ok hs1).2 ▸ ExprPres.next q.2 pos)).comp
    (compileExpression_frame hv)).comp
    ((ExprPres.emit _ _ _).comp (ExprPres.emit _ _ _))

theorem compileVarUpdate_frame {fuel : Nat} {s : St} {pos : Nat × Nat}
    {vm lm : VMap} {out : St × VMap}
    (h : compileVarUpdate fuel s pos vm lm = .ok out) : ExprPres s pos out.1 := by
  unfold compileVarUpdate at h
  rw [Res.bind_eq_ok] at h
  obtain ⟨p, hp, h⟩ := h
  rw [Res.bind_eq_ok] at h
  obtain ⟨tok, htok, h⟩ := h
  rw [Res.bind_eq_ok] at h
  obtain ⟨entry, hen, h⟩ := h
  rw [Res.bind_eq_ok] at h
  obtain ⟨s1, hs1, h⟩ := h
  rw [Res.bind_eq_ok] at h
  obtain ⟨v, hv, h⟩ := h
  rw [Res.pure_eq_ok] at h
  cases h
  exact ((((identNext_ok hp).2 ▸ ExprPres.next s pos).comp
    ((expectIdent_ok hs1).2 ▸ ExprPres.next p.2 pos)).comp
    (compileExpression_frame hv)).comp (ExprPres.emit _ _ _)

/-- Frame property of statement-level compilation: the token list, the function
profile, and — when both the insertion point and the enclosing function are not
the entry wrapper — the wrapper function itself are preserved. -/
def Guarded (s : St) (pos : Nat × Nat) (func : Nat) (s1 : St) : Prop :=
  s1.toks = s.toks ∧ funcSigs s1.m = funcSigs s.m ∧
    (pos.1 ≠ 0 → func ≠ 0 → s1.m.funcs.head? = s.m.funcs.head?)

theorem Guarded.start (s : St) (pos : Nat × Nat) (func : Nat) :
    Guarded s pos func s := ⟨rfl, rfl, fun _ _ => rfl⟩

theorem Guarded.chain {s s1 s2 : St} {pos : Nat × Nat} {func : Nat}
    (h1 : Guarded s pos func s1) (h2 : Guarded s1 pos func s2) :
    Guarded s pos func s2 :=
  ⟨h2.1.trans h1.1, h2.2.1.trans h1.2.1,
   fun h0 hf => (h2.2.2 h0 hf).trans (h1.2.2 h0 hf)⟩

theorem Guarded.of_expr {s s1 : St} {pos : Nat × Nat} {func : Nat}
    (h : ExprPres s pos s1) : Guarded s pos func s1 :=
  ⟨h.1, h.2.1, fun h0 _ => h.2.2 h0⟩

theorem Guarded.retarget {s s1 : St} {pos pos2 : Nat × Nat} {func : Nat}
    (h : Guarded s pos2 func s1) (hd : pos2.1 = pos.1 ∨ pos2.1 = func) :
    Guarded s pos func s1 := by
  refine ⟨h.1, h.2.1, fun h0 hf => h.2.2 ?_ hf⟩
  rcases hd with hd | hd <;> rw [hd] <;> assumption

theorem Guarded.of_expr_at {s s1 : St} {pos pos2 : Nat × Nat} {func : Nat}
    (h : ExprPres s pos2 s1) (hd : pos2.1 = pos.1 ∨ pos2.1 = func) :
    Guarded s pos func s1 :=
  (Guarded.of_expr h).retarget hd

theorem Guarded.appendBB (s : St) (pos : Nat × Nat) (func : Nat) (bn : String) :
    Guarded s pos func (s.appendBB func bn).2 :=
  ⟨rfl, appendBB_funcSigs s func bn, fun _ hf => appendBB_head s func bn hf⟩

theorem ExprPres.iteEmit (c : Prop) [Decidable c] (s : St) (pos2 : Nat × Nat)
    (i : Instr) : ExprPres s pos2 (if c then s else (s.emit pos2 i).2) := by
  split
  · exact ExprPres.base s pos2
  · exact ExprPres.emit s pos2 i

theorem stmtFrameAll : ∀ (fuel : Nat),
    (∀ s pos func vm lm out, compileStatement fuel s pos func vm lm = .ok out →
      Guarded s pos func out.2.1 ∧ (out.2.2.1.1 = pos.1 ∨ out.2.2.1.1 = func)) ∧
    (∀ s pos func vm lm dr out, ifThenLoop fuel s pos func vm lm dr = .ok out →
      Guarded s pos func out.2.1 ∧ (out.2.2.1.1 = pos.1 ∨ out.2.2.1.1 = func)) ∧
    (∀ s pos func vm lm dr out, stmtsUntilEnd fuel s pos func vm lm dr = .ok out →
      Guarded s pos func out.2.1 ∧ (out.2.2.1.1 = pos.1 ∨ out.2.2.1.1 = func)) ∧
    (∀ s pos func vm lm out, compileIf fuel s pos func vm lm = .ok out →
      Guarded s pos func out.1 ∧ out.2.1 = func) ∧
    (∀ s pos func vm lm out, compileWhile fuel s pos func vm lm = .ok out →
      Guarded s pos func out.1 ∧ out.2.1 = func) := by
  intro fuel
  induction fuel with
  | zero =>
    refine ⟨?_, ?_, ?_, ?_, ?_⟩
    · intro s pos func vm lm out h
      exact absurd h (by simp [compileStatement])
    · intro s pos func vm lm dr out h
      exact absurd h (by simp [ifThenLoop])
    · intro s pos func vm lm dr out h
      exact absurd h (by simp [stmtsUntilEnd])
    · intro s pos func vm lm out h
      exact absurd h (by simp [compileIf])
    · intro s pos func vm lm out h
      exact absurd h (by simp [compileWhile])
  | succ n ih =>
    obtain ⟨ihS, ihT, ihU, ihI, ihW⟩ := ih
    refine ⟨?_, ?_, ?_, ?_, ?_⟩
    · -- compileStatement
      intro s pos func vm lm out h
      simp only [compileStatement] at h
      rw [Res.bind_eq_ok] at h
      obtain ⟨p, hp, h⟩ := h
      have hstep : Guarded s pos func p.2 :=
        Guarded.of_expr ((identNext_ok hp).2 ▸ ExprPres.next s pos)
      split at h
      · rw [Res.bind_eq_ok] at h
        obtain ⟨r, hr, h⟩ := h
        rw [Res.pure_eq_ok] at h
        cases h
        exact ⟨hstep.chain (Guarded.of_expr (compileVarCreate_frame hr)), Or.inl rfl⟩
      split at h
      · rw [Res.bind_eq_ok] at h
        obtain ⟨r, hr, h⟩ := h
        rw [Res.pure_eq_ok] at h
        cases h
        exact ⟨hstep.chain (Guarded.of_expr (compileVarUpdate_frame hr)), Or.inl rfl⟩
      split at h
      · rw [Res.bind_eq_ok] at h
        obtain ⟨r, hr, h⟩ := h
        rw [Res.pure_eq_ok] at h
        cases h
        exact ⟨hstep.chain (Guarded.of_expr (compileLetCreate_frame hr)), Or.inl rfl⟩
      split at h
      · rw [Res.bind_eq_ok] at h
        obtain ⟨r, hr, h⟩ := h
        rw [Res.pure_eq_ok] at h
        cases h
        exact ⟨hstep.chain (Guarded.of_expr (compileReturn_frame hr)), Or.inl rfl⟩
      split at h
      · rw [Res.bind_eq_ok] at h
        obtain ⟨r, hr, h⟩ := h
        rw [Res.pure_eq_ok] at h
        cases h
        obtain ⟨hg, hf⟩ := ihI _ _ _ _ _ _ hr
        exact ⟨hstep.chain hg, Or.inr hf⟩
      split at h
      · rw [Res.bind_eq_ok] at h
        obtain ⟨r, hr, h⟩ := h
        rw [Res.pure_eq_ok] at h
        cases h
        obtain ⟨hg, hf⟩ := ihW _ _ _ _ _ _ hr
        exact ⟨hstep.chain hg, Or.inr hf⟩
      · rw [Res.bind_eq_ok] at h
        obtain ⟨v, hv, h⟩ := h
        rw [Res.pure_eq_ok] at h
        cases h
        exact ⟨hstep.chain (Guarded.of_expr
          ((ExprPres.rewind _ _).comp (compileExpression_frame hv))), Or.inl rfl⟩
    · -- ifThenLoop
      intro s pos func vm lm dr out h
      simp only [ifThenLoop] at h
      rw [Res.bind_eq_ok] at h
      obtain ⟨p, hp, h⟩ := h
      have hstep : Guarded s pos func p.2.rewind :=
        Guarded.of_expr (((identNext_ok hp).2 ▸ ExprPres.next s pos).comp
          (ExprPres.rewind _ _))
      split at h
      · rw [Res.pure_eq_ok] at h
        cases h
        exact ⟨hstep, Or.inl rfl⟩
      · rw [Res.bind_eq_ok] at h
        obtain ⟨r, hr, h⟩ := h
        obtain ⟨hg1, hd1⟩ := ihS _ _ _ _ _ _ hr
        obtain ⟨hg2, hd2⟩ := ihT _ _ _ _ _ _ _ h
        refine ⟨(hstep.chain hg1).chain (hg2.retarget hd1), ?_⟩
        rcases hd2 with hd2 | hd2
        · rw [hd2]; exact hd1
        · exact Or.inr hd2
    · -- stmtsUntilEnd
      intro s pos func vm lm dr out h
      simp only [stmtsUntilEnd] at h
      rw [Res.bind_eq_ok] at h
      obtain ⟨p, hp, h⟩ := h
      have hstep : Guarded s pos func p.2.rewind :=
        Guarded.of_expr (((identNext_ok hp).2 ▸ ExprPres.next s pos).comp
          (ExprPres.rewind _ _))
      split at h
      · rw [Res.pure_eq_ok] at h
        cases h
        exact ⟨hstep, Or.inl rfl⟩
      · rw [Res.bind_eq_ok] at h
        obtain ⟨r, hr, h⟩ := h
        obtain ⟨hg1, hd1⟩ := ihS _ _ _ _ _ _ hr
        obtain ⟨hg2, hd2⟩ := ihU _ _ _ _ _ _ _ h
        refine ⟨(hstep.chain hg1).chain (hg2.retarget hd1), ?_⟩
        rcases hd2 with hd2 | hd2
        · rw [hd2]; exact hd1
        · exact Or.inr hd2
    · -- compileIf
      intro s pos func vm lm out h
      simp only [compileIf] at h
      rw [Res.bind_eq_ok] at h
      obtain ⟨cond, hcond, h⟩ := h
      rw [Res.bind_eq_ok] at h
      obtain ⟨s1, hs1, h⟩ := h
      rw [Res.bind_eq_ok] at h
      obtain ⟨thenRun, hthen, h⟩ := h
      rw [Res.bind_eq_ok] at h
      obtain ⟨contp, hcontp, h⟩ := h
      obtain ⟨hgT, hdT⟩ := ihT _ _ _ _ _ _ _ hthen
      have hdT2 : thenRun.2.2.1.1 = func := by
        rcases hdT with hd | hd <;> exact hd
      have hpre : Guarded s pos func contp.2 :=
        ((((((Guarded.of_expr (compileExpression_frame hcond)).chain
          (Guarded.of_expr ((expectIdent_ok hs1).2 ▸ ExprPres.next cond.2 pos))).chain
          (Guarded.appendBB _ pos func "then")).chain
          (Guarded.appendBB _ pos func "else")).chain
          (Guarded.appendBB _ pos func "ifcont")).chain
          (Guarded.of_expr (ExprPres.emit _ pos _))).chain
          ((hgT.retarget (Or.inr rfl)).chain
            (Guarded.of_expr ((identNext_ok hcontp).2 ▸ ExprPres.next thenRun.2.1 _)))
      split at h
      · rw [Res.bind_eq_ok] at h
        obtain ⟨elseRes, her, h⟩ := h
        rw [Res.pure_eq_ok] at her
        rw [Res.pure_eq_ok] at h
        cases her
        cases h
        refine ⟨hpre.chain (Guarded.of_expr_at (ExprPres.iteEmit _ _ _ _)
            (Or.inr hdT2))
          |>.chain (Guarded.of_expr_at (ExprPres.iteEmit _ _ _ _) (Or.inr rfl)), rfl⟩
      split at h
      · rw [Res.bind_eq_ok] at h
        obtain ⟨r, hr, h⟩ := h
        rw [Res.bind_eq_ok] at h
        obtain ⟨s4, hs4, h⟩ := h
        rw [Res.bind_eq_ok] at h
        obtain ⟨elseRes, her, h⟩ := h
        rw [Res.pure_eq_ok] at her
        rw [Res.pure_eq_ok] at h
        cases her
        cases h
        obtain ⟨hgI, hdI⟩ := ihI _ _ _ _ _ _ hr
        refine ⟨hpre.chain (Guarded.of_expr_at (ExprPres.iteEmit _ _ _ _)
            (Or.inr hdT2))
          |>.chain (hgI.retarget (Or.inr rfl))
          |>.chain (Guarded.of_expr ((expectIdent_ok hs4).2 ▸
            ((ExprPres.rewind r.1 pos).comp (ExprPres.next r.1.rewind pos))))
          |>.chain (Guarded.of_expr_at (ExprPres.iteEmit _ _ _ _) (Or.inr hdI)), rfl⟩
      · rw [Res.bind_eq_ok] at h
        obtain ⟨r, hr, h⟩ := h
        rw [Res.bind_eq_ok] at h
        obtain ⟨s4, hs4, h⟩ := h
        rw [Res.bind_eq_ok] at h
        obtain ⟨elseRes, her, h⟩ := h
        rw [Res.pure_eq_ok] at her
        rw [Res.pure_eq_ok] at h
        cases her
        cases h
        obtain ⟨hgU, hdU⟩ := ihU _ _ _ _ _ _ _ hr
        have hdU2 : r.2.2.1.1 = func := by
          rcases hdU with hd | hd <;> exact hd
        refine ⟨hpre.chain (Guarded.of_expr_at (ExprPres.iteEmit _ _ _ _)
            (Or.inr hdT2))
          |>.chain (hgU.retarget (Or.inr rfl))
          |>.chain (Guarded.of_expr ((expectIdent_ok hs4).2 ▸ ExprPres.next r.2.1 pos))
          |>.chain (Guarded.of_expr_at (ExprPres.iteEmit _ _ _ _) (Or.inr hdU2)), rfl⟩
    · -- compileWhile
      intro s pos func vm lm out h
      simp only [compileWhile] at h
      rw [Res.bind_eq_ok] at h
      obtain ⟨cond, hcond, h⟩ := h
      rw [Res.bind_eq_ok] at h
      obtain ⟨s2, hs2, h⟩ := h
      rw [Res.bind_eq_ok] at h
      obtain ⟨bodyRun, hbody, h⟩ := h
      rw [Res.bind_eq_ok] at h
      obtain ⟨s4, hs4, h⟩ := h
      rw [Res.pure_eq_ok] at h
      cases h
      obtain ⟨hgU, hdU⟩ := ihU _ _ _ _ _ _ _ hbody
      have hdU2 : bodyRun.2.2.1.1 = func := by
        rcases hdU with hd | hd <;> exact hd
      refine ⟨Guarded.appendBB _ pos func "cond"
        |>.chain (Guarded.appendBB _ pos func "body")
        |>.chain (Guarded.appendBB _ pos func "whilecont")
        |>.chain (Guarded.of_expr (ExprPres.emit _ pos _))
        |>.chain (Guarded.of_expr_at (compileExpression_frame hcond) (Or.inr rfl))
        |>.chain (Guarded.of_expr ((expectIdent_ok hs2).2 ▸ ExprPres.next cond.2 _))
        |>.chain (Guarded.of_expr_at (ExprPres.emit _ _ _) (Or.inr rfl))
        |>.chain (hgU.retarget (Or.inr rfl))
        |>.chain (Guarded.of_expr ((expectIdent_ok hs4).2 ▸ ExprPres.next bodyRun.2.1 _))
        |>.chain (Guarded.of_expr_at (ExprPres.iteEmit _ _ _ _) (Or.inr hdU2)), rfl⟩

theorem fnBodyLoop_frame : ∀ (fuel : Nat) (s : St) (pos : Nat × Nat) (func : Nat)
    (vm lm : VMap) (out : St × (Nat × Nat) × VMap),
    fnBodyLoop fuel s pos func vm lm = .ok out →
    Guarded s pos func out.1 ∧ (out.2.1.1 = pos.1 ∨ out.2.1.1 = func) := by
  intro fuel
  induction fuel with
  | zero =>
    intro s pos func vm lm out h
    exact absurd h (by simp [fnBodyLoop])
  | succ n ih =>
    intro s pos func vm lm out h
    simp only [fnBodyLoop] at h
    rw [Res.bind_eq_ok] at h
    obtain ⟨tok, htok, h⟩ := h
    split at h
    · rw [Res.pure_eq_ok] at h
      cases h
      exact ⟨Guarded.start s pos func, Or.inl rfl⟩
    · rw [Res.bind_eq_ok] at h
      obtain ⟨r, hr, h⟩ := h
      obtain ⟨hg1, hd1⟩ := (stmtFrameAll n).1 _ _ _ _ _ _ hr
      obtain ⟨hg2, hd2⟩ := ih _ _ _ _ _ _ h
      refine ⟨hg1.chain (hg2.retarget hd1), ?_⟩
      rcases hd2 with hd2 | hd2
      · rw [hd2]; exact hd1
      · exact Or.inr hd2

theorem fnSigVararg_st {s : St} {out : Bool × St} (h : fnSigVararg s = .ok out) :
    out.2.toks = s.toks ∧ out.2.m = s.m := by
  unfold fnSigVararg at h
  rw [Res.bind_eq_ok] at h
  obtain ⟨p, hp, h⟩ := h
  obtain ⟨_, hnext⟩ := identNext_ok hp
  split at h <;> rw [Res.pure_eq_ok] at h <;> cases h <;> rw [hnext] <;>
    exact ⟨rfl, rfl⟩

theorem fnSigArgs_st : ∀ (fuel : Nat) (s : St) (acc : List (String × String))
    (out : List (String × String) × St), fnSigArgs fuel s acc = .ok out →
    out.2.toks = s.toks ∧ out.2.m = s.m := by
  intro fuel
  induction fuel with
  | zero =>
    intro s acc out h
    exact absurd h (by simp [fnSigArgs])
  | succ n ih =>
    intro s acc out h
    simp only [fnSigArgs] at h
    rw [Res.bind_eq_ok] at h
    obtain ⟨p, hp, h⟩ := h
    rw [Res.bind_eq_ok] at h
    obtain ⟨q, hq, h⟩ := h
    rw [Res.bind_eq_ok] at h
    obtain ⟨nn, hn, h⟩ := h
    obtain ⟨_, hp2⟩ := identNext_ok hp
    obtain ⟨_, hq2⟩ := identNext_ok hq
    obtain ⟨_, hn2⟩ := identNext_ok hn
    split at h
    · rw [Res.pure_eq_ok] at h
      cases h
      rw [hn2, hq2, hp2]
      exact ⟨rfl, rfl⟩
    · obtain ⟨h1, h2⟩ := ih _ _ _ h
      rw [h1, h2, hn2, hq2, hp2]
      exact ⟨rfl, rfl⟩

theorem fnSig_st {fuel : Nat} {s : St}
    {out : (String × Option String × List (String × String) × Bool) × St}
    (h : fnSig fuel s = .ok out) : out.2.toks = s.toks ∧ out.2.m = s.m := by
  unfold fnSig at h
  rw [Res.bind_eq_ok] at h
  obtain ⟨s1, hs1, h⟩ := h
  rw [Res.bind_eq_ok] at h
  obtain ⟨nm, hnm, h⟩ := h
  rw [Res.bind_eq_ok] at h
  obtain ⟨n1, hn1, h⟩ := h
  obtain ⟨_, hs1e⟩ := expectIdent_ok hs1
  obtain ⟨_, hnme⟩ := identNext_ok hnm
  obtain ⟨_, hn1e⟩ := identNext_ok hn1
  have hbase : n1.2.toks = s.toks ∧ n1.2.m = s.m := by
    rw [hn1e, hnme, hs1e]; exact ⟨rfl, rfl⟩
  split at h
  · rw [Res.pure_eq_ok] at h
    cases h
    exact hbase
  split at h
  · rw [Res.bind_eq_ok] at h
    obtain ⟨va, hva, h⟩ := h
    rw [Res.bind_eq_ok] at h
    obtain ⟨ar, har, h⟩ := h
    rw [Res.pure_eq_ok] at h
    cases h
    obtain ⟨hv1, hv2⟩ := fnSigVararg_st hva
    obtain ⟨ha1, ha2⟩ := fnSigArgs_st _ _ _ _ har
    rw [ha1, ha2, hv1, hv2]
    exact hbase
  · rw [Res.bind_eq_ok] at h
    obtain ⟨ty, hty, h⟩ := h
    rw [Res.bind_eq_ok] at h
    obtain ⟨n2, hn2, h⟩ := h
    obtain ⟨_, htye⟩ := identNext_ok hty
    obtain ⟨_, hn2e⟩ := identNext_ok hn2
    have hbase2 : n2.2.toks = s.toks ∧ n2.2.m = s.m := by
      rw [hn2e, htye]
      exact ⟨hbase.1, hbase.2⟩
    split at h
    · rw [Res.pure_eq_ok] at h
      cases h
      exact hbase2
    split at h
    · rw [Res.bind_eq_ok] at h
      obtain ⟨va, hva, h⟩ := h
      rw [Res.bind_eq_ok] at h
      obtain ⟨ar, har, h⟩ := h
      rw [Res.pure_eq_ok] at h
      cases h
      obtain ⟨hv1, hv2⟩ := fnSigVararg_st hva
      obtain ⟨ha1, ha2⟩ := fnSigArgs_st _ _ _ _ har
      rw [ha1, ha2, hv1, hv2]
      exact hbase2
    · rw [Res.bind_eq_ok] at h
      obtain ⟨tok, htok, h⟩ := h
      exact absurd h (by simp)

/-- The synthesized entry wrapper exactly as `compile` creates it before the
top-level loop runs. -/
def mainWrapper : IRFunc := ⟨"main", .fnty .void [] false, [⟨"entry", []⟩]⟩

/-- Invariant maintained across the top-level loop: the wrapper is the first
function of the module, its entry block is still empty, and no other function
carries the name `main` (the symbol-table uniquing renames colliding additions). -/
def MainInv (m : IRModule) : Prop :=
  ∃ tl, m.funcs = mainWrapper :: tl ∧ ∀ f ∈ tl, f.name ≠ "main"

theorem append_dot_ne_main (a b : String) : a ++ "." ++ b ≠ "main" := by
  intro h
  have hd : ('.' : Char) ∈ (a ++ "." ++ b).data := by
    rw [String.data_append, String.data_append]
    refine List.mem_append.mpr (Or.inl (List.mem_append.mpr (Or.inr ?_)))
    decide
  rw [h] at hd
  exact absurd hd (by decide)

theorem MainInv.of_pres {m m2 : IRModule} (h : MainInv m)
    (hh : m2.funcs.head? = m.funcs.head?) (hs : funcSigs m2 = funcSigs m) :
    MainInv m2 := by
  obtain ⟨tl, hf, htl⟩ := h
  rw [hf] at hh
  simp only [funcSigs, hf] at hs
  cases hm2 : m2.funcs with
  | nil => rw [hm2] at hh; simp at hh
  | cons w tl2 =>
    rw [hm2] at hh hs
    simp only [List.head?_cons, Option.some.injEq] at hh
    simp only [List.map_cons, List.cons.injEq] at hs
    refine ⟨tl2, by rw [hm2, hh], ?_⟩
    intro f hfmem
    have hmm : (f.name, f.ty) ∈ tl.map (fun g => (g.name, g.ty)) := by
      rw [← hs.2]
      exact List.mem_map_of_mem _ hfmem
    rw [List.mem_map] at hmm
    obtain ⟨g, hg, hge⟩ := hmm
    have hgn : g.name = f.name := ((Prod.mk.injEq _ _ _ _).mp hge).1
    rw [← hgn]
    exact htl g hg

theorem MainInv.guarded {s s1 : St} {pos : Nat × Nat} {func : Nat}
    (h : MainInv s.m) (hg : Guarded s pos func s1)
    (h0 : pos.1 ≠ 0) (hf : func ≠ 0) : MainInv s1.m :=
  h.of_pres (hg.2.2 h0 hf) hg.2.1

theorem MainInv.addFunction {s : St} (h : MainInv s.m) (nm : String)
    (ty : IRType) : MainInv (s.addFunction nm ty).2.m := by
  obtain ⟨tl, hf, htl⟩ := h
  refine ⟨tl ++ [⟨if nm ∈ s.m.funcs.map (fun g => g.name) then
      nm ++ "." ++ toString s.m.nextId else nm, ty, []⟩], ?_, ?_⟩
  · show s.m.funcs ++ [_] = mainWrapper :: (tl ++ [_])
    rw [hf]
    rfl
  · intro f hm
    rw [List.mem_append] at hm
    rcases hm with hm | hm
    · exact htl f hm
    · rw [List.mem_singleton] at hm
      rw [hm]
      by_cases hc : nm ∈ s.m.funcs.map (fun g => g.name)
      · simp only [hc, if_true]
        exact append_dot_ne_main nm _
      · simp only [hc, if_false]
        intro heq
        apply hc
        rw [hf, heq]
        simp [mainWrapper]

theorem MainInv.funcs_ne_nil {m : IRModule} (h : MainInv m) : m.funcs ≠ [] := by
  obtain ⟨tl, hf, _⟩ := h
  rw [hf]
  simp

theorem compileGlobalConst_funcs {s : St} {vm : VMap} {out : St × VMap}
    (h : compileGlobalConst s vm = .ok out) : out.1.m.funcs = s.m.funcs := by
  unfold compileGlobalConst at h
  rw [Res.bind_eq_ok] at h
  obtain ⟨s1, hs1, h⟩ := h
  rw [Res.bind_eq_ok] at h
  obtain ⟨tyq, htyq, h⟩ := h
  rw [Res.bind_eq_ok] at h
  obtain ⟨nmq, hnmq, h⟩ := h
  rw [Res.bind_eq_ok] at h
  obtain ⟨s2, hs2, h⟩ := h
  rw [Res.bind_eq_ok] at h
  obtain ⟨tok, htok, h⟩ := h
  rw [Res.bind_eq_ok] at h
  obtain ⟨val, hval, h⟩ := h
  rw [Res.pure_eq_ok] at h
  cases h
  rw [(expectIdent_ok hs2).2, (identNext_ok hnmq).2, (identNext_ok htyq).2,
    (expectIdent_ok hs1).2]
  rfl

theorem compileExtern_MainInv {fuel : Nat} {s : St} {vm : VMap} {out : St × VMap}
    (h : compileExtern fuel s vm = .ok out) (hm : MainInv s.m) :
    MainInv out.1.m := by
  unfold compileExtern at h
  rw [Res.bind_eq_ok] at h
  obtain ⟨s1, hs1, h⟩ := h
  rw [Res.bind_eq_ok] at h
  obtain ⟨sig, hsig, h⟩ := h
  rw [Res.bind_eq_ok] at h
  obtain ⟨retTy, hret, h⟩ := h
  rw [Res.bind_eq_ok] at h
  obtain ⟨ptys, hptys, h⟩ := h
  rw [Res.pure_eq_ok] at h
  cases h
  have hm2 : MainInv sig.2.m := by
    rw [(fnSig_st hsig).2, (expectIdent_ok hs1).2]
    exact hm
  exact hm2.addFunction _ _

theorem fnIntro_MainInv {s : St} {vm : VMap} (hm : MainInv s.m) (name : String)
    (retTy : IRType) (ptys : List IRType) (va : Bool) (argNames : List String) :
    MainInv (fnIntro s vm name retTy ptys va argNames).st.m ∧
      (fnIntro s vm name retTy ptys va argNames).fIdx ≠ 0 := by
  have hlen : s.m.funcs.length ≠ 0 := by
    intro h0
    exact hm.funcs_ne_nil (List.length_eq_zero.mp h0)
  constructor
  · exact (hm.addFunction name (IRType.fnty retTy ptys va)).of_pres
      (appendBB_head _ _ _ hlen) (appendBB_funcSigs _ _ _)
  · exact hlen

theorem compileFn_MainInv {fuel : Nat} {s : St} {vm : VMap} {out : St × VMap}
    (h : compileFn fuel s vm = .ok out) (hm : MainInv s.m) :
    MainInv out.1.m := by
  unfold compileFn at h
  rw [Res.bind_eq_ok] at h
  obtain ⟨sig, hsig, h⟩ := h
  rw [Res.bind_eq_ok] at h
  obtain ⟨retTy, hret, h⟩ := h
  rw [Res.bind_eq_ok] at h
  obtain ⟨ptys, hptys, h⟩ := h
  rw [Res.bind_eq_ok] at h
  obtain ⟨body, hbody, h⟩ := h
  rw [Res.bind_eq_ok] at h
  obtain ⟨s2, hs2, h⟩ := h
  rw [Res.pure_eq_ok] at h
  cases h
  have hmsig : MainInv sig.2.m := by
    rw [(fnSig_st hsig).2]
    exact hm
  obtain ⟨hmi, hfidx⟩ := fnIntro_MainInv hmsig sig.1.1 retTy ptys sig.1.2.2.2
    (sig.1.2.2.1.map (fun a => a.2))
  obtain ⟨hg, hd⟩ := fnBodyLoop_frame _ _ _ _ _ _ _ hbody
  have hmBody : MainInv body.1.m := hmi.guarded hg hfidx hfidx
  have hd2 : body.2.1.1 ≠ 0 := by
    rcases hd with hd | hd <;> rw [hd] <;> exact hfidx
  have hmFin : MainInv (if sig.1.2.1 = none then
      (body.1.emit body.2.1 .retVoid).2 else body.1).m := by
    split
    · exact hmBody.of_pres (emit_head _ _ _ hd2) (emit_funcSigs _ _ _)
    · exact hmBody
  rw [(expectIdent_ok hs2).2]
  exact hmFin

theorem compileForms_MainInv : ∀ (fuel : Nat) (s : St) (vm : VMap)
    (out : St × VMap), compileForms fuel s vm = .ok out → MainInv s.m →
    MainInv out.1.m := by
  intro fuel
  induction fuel with
  | zero =>
    intro s vm out h hm
    exact absurd h (by simp [compileForms])
  | succ n ih =>
    intro s vm out h hm
    simp only [compileForms] at h
    split at h
    · cases h
      exact hm
    case _ tok _ =>
      split at h
      case _ id =>
        split at h
        · rw [Res.bind_eq_ok] at h
          obtain ⟨r, hr, h⟩ := h
          refine ih _ _ _ h ?_
          obtain ⟨tl, hf, htl⟩ := hm
          exact ⟨tl, (compileGlobalConst_funcs hr).trans hf, htl⟩
        split at h
        · rw [Res.bind_eq_ok] at h
          obtain ⟨r, hr, h⟩ := h
          exact ih _ _ _ h (compileExtern_MainInv hr hm)
        split at h
        · rw [Res.bind_eq_ok] at h
          obtain ⟨r, hr, h⟩ := h
          exact ih _ _ _ h (compileFn_MainInv hr hm)
        · exact absurd h (by simp)
      · exact absurd h (by simp)
    all_goals exact absurd h (by simp)

/-! ### Claim C1 -/

/-- C1: for every valid program (one whose compilation succeeds, which requires a
user-defined `main` to have been registered), the emitted module contains exactly
one function named `main` in the IR — the synthesized wrapper, which the LLVM
symbol table keeps at the name `main` while renaming the user function added
later under the same name.  The wrapper is the first function of the module, of
type void with no parameters (non-vararg), and its body is a single basic block
`entry` holding exactly a call to the symbol registered under the source name
`main` (the user-defined `main`) followed by a void return. -/
theorem compile_unique_main_wrapper (fuel : Nat) (toks : List Token)
    (name : String) (m : IRModule) (gm : VMap)
    (h : compileAux fuel toks name = .ok (m, gm)) :
    (m.funcs.filter (fun f => f.name == "main")).length = 1 ∧
    ∃ sym tl k, vmLookup gm "main" = some sym ∧
      m.funcs = ⟨"main", .fnty .void [] false,
        [⟨"entry", [(k, .call sym.1 sym.2.1 []), (k + 1, .retVoid)]⟩]⟩ :: tl ∧
      ∀ f ∈ tl, f.name ≠ "main" := by
  unfold compileAux at h
  split at h
  case _ r hforms =>
    have hminv : MainInv r.1.m :=
      compileForms_MainInv fuel _ _ _ hforms ⟨[], rfl, by simp⟩
    split at h
    · exact absurd h (by simp)
    case _ f hlook =>
      obtain ⟨tl, hfs, htl⟩ := hminv
      have hcomp : ((r.1.emit (0, 0) (.call f.1 f.2.1 [])).2.emit
          (0, 0) .retVoid).2.m.funcs =
          ⟨"main", .fnty .void [] false, [⟨"entry",
            [(r.1.m.nextId, .call f.1 f.2.1 []),
             (r.1.m.nextId + 1, .retVoid)]⟩]⟩ :: tl := by
        simp only [St.emit]
        rw [hfs]
        simp [modAt, mainWrapper, emitFnUpd]
      cases h
      constructor
      · rw [hcomp]
        rw [List.filter_cons_of_pos (by simp)]
        have htlnil : tl.filter (fun f => f.name == "main") = [] := by
          rw [List.filter_eq_nil_iff]
          intro a ha
          simpa using htl a ha
        rw [htlnil]
        rfl
      · exact ⟨f, tl, r.1.m.nextId, hlook, hcomp, htl⟩
  all_goals exact absurd h (by simp)

/-- Projection used by witnesses: the module of a successful compilation. -/
def resModOf (r : Res (IRModule × VMap)) : IRModule :=
  match r with
  | .ok p => p.1
  | _ => initModule ""

/-- Projection used by witnesses: the global symbol map of a successful
compilation. -/
def resVmOf (r : Res (IRModule × VMap)) : VMap :=
  match r with
  | .ok p => p.2
  | _ => []

/-- The token stream of the program `fn main do end`. -/
def toksFnMainEnd : List Token :=
  [⟨.Ident "fn", 0⟩, ⟨.Ident "main", 1⟩, ⟨.Ident "do", 2⟩, ⟨.Ident "end", 3⟩]

/-- Witness for C1 at the concrete program `fn main do end`. -/
theorem compile_unique_main_wrapper_witness :
    ((resModOf (compileAux 16 toksFnMainEnd "m")).funcs.filter
      (fun f => f.name == "main")).length = 1 :=
  (compile_unique_main_wrapper 16 toksFnMainEnd "m"
    (resModOf (compileAux 16 toksFnMainEnd "m"))
    (resVmOf (compileAux 16 toksFnMainEnd "m")) (by rfl)).1

/-! ### Shared concrete fixtures for witnesses and counterexamples -/

/-- An identifier token at span 0. -/
def ti (s : String) : Token := ⟨.Ident s, 0⟩

/-- A one-function module (function index 0, one empty `entry` block) used to run
body-level compilation functions directly. -/
def testMod : IRModule := ⟨"t", [⟨"f", .fnty .void [] false, [⟨"entry", []⟩]⟩], [], 0⟩

/-- A local environment binding `b` directly (non-addressable) to an i1 constant. -/
def lmB : VMap := [("b", (IRType.i1, Value.constInt .i1 1, false))]

/-! ### Claim C2 -/

/-- C2 counterexample: on the empty token stream (no top-level forms, hence no
user-defined `main`), `compile` does not return a structured error — it aborts
the process at `varmap.get("main").unwrap()`. -/
theorem compile_missing_main_cex :
    compileAux 1 [] "m" = .abort "called Option::unwrap on a None value" ∧
    ∀ e, compileAux 1 [] "m" ≠ .err e := by
  refine ⟨rfl, fun e h => ?_⟩
  exact Res.noConfusion ((rfl :
    compileAux 1 [] "m" = .abort "called Option::unwrap on a None value").symm.trans h)

/-- C2 (amended): when the top-level loop completes without having registered a
symbol named `main`, `compile` aborts the process (the `unwrap` of
`varmap.get("main")`) instead of returning a structured error value. -/
theorem compile_missing_main_aborts (fuel : Nat) (toks : List Token)
    (name : String) (r : St × VMap)
    (hforms : compileForms fuel (initSt toks name) [] = .ok r)
    (hnone : vmLookup r.2 "main" = none) :
    compileAux fuel toks name = .abort "called Option::unwrap on a None value" := by
  unfold compileAux
  rw [hforms]
  simp [hnone]

/-- Witness for C2 at the concrete empty program. -/
theorem compile_missing_main_aborts_witness :
    compileAux 1 [] "m" = .abort "called Option::unwrap on a None value" :=
  compile_missing_main_aborts 1 [] "m" (initSt [] "m", []) rfl rfl

/-! ### Claim C3 -/

/-- The token stream of `if b do elif b do end` — one `elif` arm, exactly one
`end` token. -/
def stIfElif : St :=
  ⟨[ti "b", ti "do", ti "elif", ti "b", ti "do", ti "end"], 0, testMod⟩

/-- C3 counterexample: an `if` with one `elif` arm compiles successfully from a
token stream containing exactly ONE `end` token, consuming the entire six-token
stream — so two `end` tokens are not required. -/
theorem compile_if_elif_one_end_cex :
    (compileIf 32 stIfElif (0, 0) 0 [] lmB).toOption.map (fun r => r.1.idx) =
      some 6 ∧
    stIfElif.toks.length = 6 ∧
    (stIfElif.toks.filter (fun t => t.tt == TokenType.Ident "end")).length = 1 :=
  ⟨rfl, rfl, rfl⟩

theorem iteEmit_st (c : Prop) [Decidable c] (st : St) (p2 : Nat × Nat)
    (i : Instr) :
    (if c then st else (st.emit p2 i).2).toks = st.toks ∧
    (if c then st else (st.emit p2 i).2).idx = st.idx := by
  split
  · exact ⟨rfl, rfl⟩
  · exact ⟨rfl, rfl⟩

/-- C3 (amended): whenever `compile_if` returns successfully, the last token it
consumed is an `end` of the original stream: the cursor ends one past an
`Ident "end"` token.  On the `elif` path this is achieved by rewinding the
cursor one step after the recursive call (which consumed the chain's terminating
`end`) and consuming that same `end` again — so an `if` with one `elif` arm
requires exactly one `end` token, not two. -/
theorem compileIf_consumes_trailing_end (fuel : Nat) (s : St)
    (pos : Nat × Nat) (func : Nat) (vm lm : VMap) (out : St × (Nat × Nat))
    (h : compileIf fuel s pos func vm lm = .ok out) :
    out.1.toks = s.toks ∧ ∃ k l, out.1.idx = k + 1 ∧
      s.toks[k]? = some ⟨.Ident "end", l⟩ := by
  cases fuel with
  | zero => exact absurd h (by simp [compileIf])
  | succ n =>
    simp only [compileIf] at h
    rw [Res.bind_eq_ok] at h
    obtain ⟨cond, hcond, h⟩ := h
    rw [Res.bind_eq_ok] at h
    obtain ⟨s1, hs1, h⟩ := h
    rw [Res.bind_eq_ok] at h
    obtain ⟨thenRun, hthen, h⟩ := h
    rw [Res.bind_eq_ok] at h
    obtain ⟨contp, hcontp, h⟩ := h
    obtain ⟨hgT, hdT⟩ := (stmtFrameAll n).2.1 _ _ _ _ _ _ _ hthen
    have ht0 : cond.2.toks = s.toks := (compileExpression_frame hcond).1
    have htT : thenRun.2.1.toks = s.toks := by
      rw [hgT.1, (expectIdent_ok hs1).2]
      exact ht0
    obtain ⟨⟨lc, htokc⟩, hce⟩ := identNext_ok hcontp
    split at h
    case isTrue hcend =>
      rw [Res.bind_eq_ok] at h
      obtain ⟨elseRes, her, h⟩ := h
      rw [Res.pure_eq_ok] at her
      rw [Res.pure_eq_ok] at h
      cases her
      cases h
      refine ⟨?_, thenRun.2.1.idx, lc, ?_, ?_⟩
      · rw [(iteEmit_st _ _ _ _).1, (iteEmit_st _ _ _ _).1, hce]
        exact htT
      · rw [(iteEmit_st _ _ _ _).2, (iteEmit_st _ _ _ _).2, hce]
        rfl
      · rw [← htT, ← hcend]
        exact htokc
    split at h
    case isTrue hcelif =>
      rw [Res.bind_eq_ok] at h
      obtain ⟨r, hr, h⟩ := h
      rw [Res.bind_eq_ok] at h
      obtain ⟨s4, hs4, h⟩ := h
      rw [Res.bind_eq_ok] at h
      obtain ⟨elseRes, her, h⟩ := h
      rw [Res.pure_eq_ok] at her
      rw [Res.pure_eq_ok] at h
      cases her
      cases h
      obtain ⟨hgI, _⟩ := (stmtFrameAll n).2.2.2.1 _ _ _ _ _ _ hr
      have htI : r.1.toks = s.toks := by
        rw [hgI.1, (iteEmit_st _ _ _ _).1, hce]
        exact htT
      obtain ⟨⟨le, htoke⟩, hs4e⟩ := expectIdent_ok hs4
      refine ⟨?_, r.1.rewind.idx, le, ?_, ?_⟩
      · rw [(iteEmit_st _ _ _ _).1, hs4e]
        exact htI
      · rw [(iteEmit_st _ _ _ _).2, hs4e]
        rfl
      · rw [← htI]
        exact htoke
    case isFalse =>
      rw [Res.bind_eq_ok] at h
      obtain ⟨r, hr, h⟩ := h
      rw [Res.bind_eq_ok] at h
      obtain ⟨s4, hs4, h⟩ := h
      rw [Res.bind_eq_ok] at h
      obtain ⟨elseRes, her, h⟩ := h
      rw [Res.pure_eq_ok] at her
      rw [Res.pure_eq_ok] at h
      cases her
      cases h
      obtain ⟨hgU, _⟩ := (stmtFrameAll n).2.2.1 _ _ _ _ _ _ _ hr
      have htU : r.2.1.toks = s.toks := by
        rw [hgU.1, (iteEmit_st _ _ _ _).1, hce]
        exact htT
      obtain ⟨⟨le, htoke⟩, hs4e⟩ := expectIdent_ok hs4
      refine ⟨?_, r.2.1.idx, le, ?_, ?_⟩
      · rw [(iteEmit_st _ _ _ _).1, hs4e]
        exact htU
      · rw [(iteEmit_st _ _ _ _).2, hs4e]
        rfl
      · rw [← htU]
        exact htoke

/-- Projection for states returned by the control-flow compilers. -/
def resCtlOf (r : Res (St × (Nat × Nat))) : St × (Nat × Nat) :=
  match r with
  | .ok p => p
  | _ => (⟨[], 0, testMod⟩, (0, 0))

/-- Witness for C3 at the concrete one-`end` `elif` stream. -/
theorem compileIf_consumes_trailing_end_witness :
    (resCtlOf (compileIf 32 stIfElif (0, 0) 0 [] lmB)).1.toks = stIfElif.toks ∧
    ∃ k l, (resCtlOf (compileIf 32 stIfElif (0, 0) 0 [] lmB)).1.idx = k + 1 ∧
      stIfElif.toks[k]? = some ⟨.Ident "end", l⟩ :=
  compileIf_consumes_trailing_end 32 stIfElif (0, 0) 0 [] lmB
    (resCtlOf (compileIf 32 stIfElif (0, 0) 0 [] lmB)) (by rfl)

/-! ### Claim C4 -/

/-- The token stream of `if b do return end else return end end`: both arms
diverge (each is `return end`). -/
def stIfBothRet : St :=
  ⟨[ti "if", ti "b", ti "do", ti "return", ti "end",
    ti "else", ti "return", ti "end", ti "end"], 0, testMod⟩

/-- Projection for results of `compileStatement`. -/
def resStmtOf (r : Res (Bool × St × (Nat × Nat) × VMap)) :
    Bool × St × (Nat × Nat) × VMap :=
  match r with
  | .ok p => p
  | _ => (false, ⟨[], 0, testMod⟩, (0, 0), [])

/-- C4 counterexample: for an `if` whose then-arm and else-arm both end in
`return`, `compile_statement` still reports the statement as NOT diverging
(the flag is `false`, not `true`). -/
theorem compile_statement_if_divergence_cex :
    (compileStatement 32 stIfBothRet (0, 0) 0 [] lmB).toOption.map
      (fun r => r.1) = some false :=
  rfl

/-- C4 (amended): `compile_statement` reports `false` (non-diverging) for every
`if` statement, regardless of its arms: only `return` yields a `true` flag; the
divergence of the arms of an `if` is tracked only inside `compile_if`, where it
suppresses the per-arm join branches, and is never propagated out. -/
theorem compile_statement_if_reports_false (fuel : Nat) (s : St)
    (pos : Nat × Nat) (func : Nat) (vm lm : VMap)
    (out : Bool × St × (Nat × Nat) × VMap) (l : Nat)
    (htok : s.toks[s.idx]? = some ⟨.Ident "if", l⟩)
    (h : compileStatement fuel s pos func vm lm = .ok out) : out.1 = false := by
  cases fuel with
  | zero => exact absurd h (by simp [compileStatement])
  | succ n =>
    simp only [compileStatement] at h
    rw [Res.bind_eq_ok] at h
    obtain ⟨p, hp, h⟩ := h
    obtain ⟨⟨l2, htok2⟩, _⟩ := identNext_ok hp
    rw [htok] at htok2
    injection htok2 with htok3
    injection htok3 with htok4 htok5
    injection htok4 with hpid
    rw [← hpid] at h
    split at h
    case isTrue hc => exact absurd hc (by decide)
    split at h
    case isTrue hc => exact absurd hc (by decide)
    split at h
    case isTrue hc => exact absurd hc (by decide)
    split at h
    case isTrue hc => exact absurd hc (by decide)
    split at h
    case isFalse hc => exact absurd rfl hc
    rw [Res.bind_eq_ok] at h
    obtain ⟨r, hr, h⟩ := h
    rw [Res.pure_eq_ok] at h
    cases h
    rfl

/-- Witness for C4 at the concrete both-arms-return input (its proof applies the
amended theorem at that input). -/
theorem compile_statement_if_reports_false_witness :
    (resStmtOf (compileStatement 32 stIfBothRet (0, 0) 0 [] lmB)).1 = false :=
  compile_statement_if_reports_false 32 stIfBothRet (0, 0) 0 [] lmB
    (resStmtOf (compileStatement 32 stIfBothRet (0, 0) 0 [] lmB)) 0 rfl (by rfl)

/-! ### Claim C5 -/

/-- The vararg flag of a function type. -/
def fntyVararg : IRType → Bool
  | .fnty _ _ v => v
  | _ => false

/-- The token stream of `fn f with vararg i32 a do end` over a module holding
only the entry wrapper. -/
def stFnVararg : St :=
  ⟨[ti "fn", ti "f", ti "with", ti "vararg", ti "i32", ti "a", ti "do", ti "end"],
   0, initModule "x"⟩

/-- C5 counterexample: a function defined with `fn` and the `vararg` marker is
added to the module with a VARARG function type — the marker is neither ignored
nor rejected for `fn` definitions. -/
theorem compile_fn_vararg_cex :
    (compileFn 32 stFnVararg []).toOption.map
      (fun r => r.1.m.funcs.map (fun f => (f.name, fntyVararg f.ty))) =
    some [("main", false), ("f", true)] :=
  rfl

theorem addFunction_funcSigs (s : St) (nm : String) (ty : IRType) :
    ∃ unm, funcSigs (s.addFunction nm ty).2.m = funcSigs s.m ++ [(unm, ty)] := by
  refine ⟨if nm ∈ s.m.funcs.map (fun f => f.name) then
    nm ++ "." ++ toString s.m.nextId else nm, ?_⟩
  simp only [St.addFunction, funcSigs, List.map_append]
  rfl

theorem fnIntro_st_sigs (s : St) (vm : VMap) (name : String) (retTy : IRType)
    (ptys : List IRType) (va : Bool) (ns : List String) :
    ∃ unm, funcSigs (fnIntro s vm name retTy ptys va ns).st.m =
      funcSigs s.m ++ [(unm, .fnty retTy ptys va)] := by
  obtain ⟨unm, he⟩ := addFunction_funcSigs s name (.fnty retTy ptys va)
  exact ⟨unm, by unfold fnIntro; rw [appendBB_funcSigs]; exact he⟩

theorem fnIntro_vm (s : St) (vm : VMap) (name : String) (retTy : IRType)
    (ptys : List IRType) (va : Bool) (ns : List String) :
    (fnIntro s vm name retTy ptys va ns).vm =
      vmInsert name (.fnty retTy ptys va, .func s.m.funcs.length, false) vm :=
  rfl

/-- C5 (amended): the `vararg` marker parsed by `fn_sig` is honoured for `fn`
definitions exactly as for `extern` declarations: `compile_fn` adds exactly one
function to the module, and its function type carries the parsed vararg flag;
the same type is registered in the global symbol table under the source name. -/
theorem compileFn_vararg_honored (fuel : Nat) (s : St) (vm : VMap)
    (sig : (String × Option String × List (String × String) × Bool) × St)
    (retTy : IRType) (ptys : List IRType) (out : St × VMap)
    (hsig : fnSig fuel s = .ok sig)
    (hret : tyStrToTy (sig.1.2.1.getD "void") = .ok retTy)
    (hp : tyListUnwrap sig.1.2.2.1 = .ok ptys)
    (h : compileFn fuel s vm = .ok out) :
    (∃ unm, funcSigs out.1.m =
      funcSigs s.m ++ [(unm, .fnty retTy ptys sig.1.2.2.2)]) ∧
    vmLookup out.2 sig.1.1 = some (.fnty retTy ptys sig.1.2.2.2,
      .func s.m.funcs.length, false) := by
  unfold compileFn at h
  rw [Res.bind_eq_ok] at h
  obtain ⟨sig2, hsig2, h⟩ := h
  rw [hsig] at hsig2
  cases hsig2
  rw [Res.bind_eq_ok] at h
  obtain ⟨retTy2, hret2, h⟩ := h
  rw [hret] at hret2
  cases hret2
  rw [Res.bind_eq_ok] at h
  obtain ⟨ptys2, hp2, h⟩ := h
  rw [hp] at hp2
  cases hp2
  rw [Res.bind_eq_ok] at h
  obtain ⟨body, hbody, h⟩ := h
  rw [Res.bind_eq_ok] at h
  obtain ⟨s2, hs2, h⟩ := h
  rw [Res.pure_eq_ok] at h
  cases h
  obtain ⟨hg, _⟩ := fnBodyLoop_frame _ _ _ _ _ _ _ hbody
  obtain ⟨unm, hsigs⟩ := fnIntro_st_sigs sig.2 vm sig.1.1 retTy ptys
    sig.1.2.2.2 (sig.1.2.2.1.map (fun a => a.2))
  constructor
  · refine ⟨unm, ?_⟩
    have hfin : funcSigs (if sig.1.2.1 = none then
        (body.1.emit body.2.1 .retVoid).2 else body.1).m = funcSigs body.1.m := by
      split
      · exact emit_funcSigs _ _ _
      · rfl
    rw [(expectIdent_ok hs2).2]
    show funcSigs (if sig.1.2.1 = none then
        (body.1.emit body.2.1 .retVoid).2 else body.1).m = _
    rw [hfin, hg.2.1, hsigs, (fnSig_st hsig).2]
  · rw [fnIntro_vm]
    rw [(fnSig_st hsig).2]
    exact vmLookup_insert_self _ _ _

/-- Projection for results of the top-level form compilers. -/
def resFormOf (r : Res (St × VMap)) : St × VMap :=
  match r with
  | .ok p => p
  | _ => (⟨[], 0, testMod⟩, [])

/-- Witness for C5 at the concrete `fn f with vararg i32 a do end` input. -/
theorem compileFn_vararg_honored_witness :
    (∃ unm, funcSigs (resFormOf (compileFn 32 stFnVararg [])).1.m =
      funcSigs stFnVararg.m ++ [(unm, .fnty .void [.i32] true)]) ∧
    vmLookup (resFormOf (compileFn 32 stFnVararg [])).2 "f" =
      some (.fnty .void [.i32] true, .func 1, false) :=
  compileFn_vararg_honored 32 stFnVararg []
    (("f", none, [("i32", "a")], true), St.next stFnVararg |>.next |>.next
      |>.next |>.next |>.next |>.next)
    .void [.i32] (resFormOf (compileFn 32 stFnVararg [])) (by rfl) rfl rfl (by rfl)

/-! ### Claim C6 -/

theorem Res.ok_bind {α β : Type} (a : α) (f : α → Res β) :
    (Res.ok a) >>= f = f a := rfl

theorem modAt_length {α : Type} (l : List α) (n : Nat) (f : α → α) :
    (modAt l n f).length = l.length := by
  induction l generalizing n with
  | nil => rfl
  | cons a l ih =>
    cases n with
    | zero => rfl
    | succ n => simp [modAt, ih]

theorem modAt_getElem {α : Type} (l : List α) (n : Nat) (f : α → α) :
    (modAt l n f)[n]? = (l[n]?).map f := by
  induction l generalizing n with
  | nil => rfl
  | cons a l ih =>
    cases n with
    | zero => simp [modAt]
    | succ n => simpa [modAt] using ih n

theorem posValid_emit (s : St) (pos : Nat × Nat) (i : Instr)
    (hv : posValid s pos) : posValid (s.emit pos i).2 pos := by
  obtain ⟨fn, hfn, hb⟩ := hv
  refine ⟨emitFnUpd pos s.m.nextId i fn, ?_, ?_⟩
  · show (modAt s.m.funcs pos.1 (emitFnUpd pos s.m.nextId i))[pos.1]? = _
    rw [modAt_getElem, hfn]
    rfl
  · show pos.2 < (modAt fn.blocks pos.2 _).length
    rw [modAt_length]
    exact hb

theorem blockAt_emit (s : St) (pos : Nat × Nat) (i : Instr)
    (hv : posValid s pos) :
    blockAt (s.emit pos i).2 pos = blockAt s pos ++ [(s.m.nextId, i)] := by
  obtain ⟨fn, hfn, hb⟩ := hv
  have hbb : fn.blocks[pos.2]? = some fn.blocks[pos.2] :=
    List.getElem?_eq_getElem hb
  simp only [blockAt, St.emit]
  rw [modAt_getElem, hfn]
  simp only [Option.map_some', emitFnUpd]
  rw [modAt_getElem, hbb]
  simp

/-- C6: `var`-created bindings are addressable and `let`-created ones are not.
Compiling `var <ty> <x> is <e>` emits, after the expression, exactly an `alloca`
followed by a `store` of the expression value into the fresh slot, and binds `x`
addressable to the slot value; a later read of an addressable binding emits
exactly one `load` and returns its result.  Compiling `let <ty> <x> be <e>`
binds `x` non-addressable to the expression value with no further emission, and
a later read of a non-addressable binding returns the stored value with no
emission at all (the module is untouched; only the cursor advances). -/
theorem var_let_addressability
    (fuelV : Nat) (sV : St) (posV : Nat × Nat) (vmV lmV : VMap)
    (pV : String × St) (tyV : IRType) (qV : String × St) (sV1 : St)
    (vV : Value × St)
    (h1 : identNext sV "type" = .ok pV)
    (h2 : tyStrToTy pV.1 = .ok tyV)
    (h3 : identNext pV.2 "name" = .ok qV)
    (h4 : expectIdent qV.2 "is" = .ok sV1)
    (h5 : compileExpression fuelV sV1 posV vmV lmV qV.1 = .ok vV)
    (fuelL : Nat) (sL : St) (posL : Nat × Nat) (vmL lmL : VMap)
    (pL : String × St) (tyL : IRType) (qL : String × St) (sL1 : St)
    (vL : Value × St)
    (h6 : identNext sL "type" = .ok pL)
    (h7 : tyStrToTy pL.1 = .ok tyL)
    (h8 : identNext pL.2 "name" = .ok qL)
    (h9 : expectIdent qL.2 "be" = .ok sL1)
    (h10 : compileExpression fuelL sL1 posL vmL lmL qL.1 = .ok vL)
    (fuelR : Nat) (sR : St) (posR : Nat × Nat) (vmR lmR : VMap) (rnR : String)
    (xR : String) (lR : Nat) (tokR : Token) (tyR : IRType) (slotR : Value)
    (h11 : sR.toks[sR.idx]? = some ⟨.Ident xR, lR⟩)
    (h12 : xR ≠ "call") (h13 : xR ≠ "literal")
    (h14 : sR.next.this = .ok tokR)
    (h15 : getVar xR tokR.loc vmR lmR = .ok (tyR, slotR, true))
    (fuelD : Nat) (sD : St) (posD : Nat × Nat) (vmD lmD : VMap) (rnD : String)
    (xD : String) (lD : Nat) (tokD : Token) (tyD : IRType) (vD : Value)
    (h16 : sD.toks[sD.idx]? = some ⟨.Ident xD, lD⟩)
    (h17 : xD ≠ "call") (h18 : xD ≠ "literal")
    (h19 : sD.next.this = .ok tokD)
    (h20 : getVar xD tokD.loc vmD lmD = .ok (tyD, vD, false)) :
    (compileVarCreate fuelV sV posV vmV lmV =
      .ok (((vV.2.emit posV (.alloca tyV)).2.emit posV
          (.store vV.1 (vV.2.emit posV (.alloca tyV)).1)).2,
        vmInsert qV.1 (tyV, (vV.2.emit posV (.alloca tyV)).1, true) lmV) ∧
      (posValid vV.2 posV →
        blockAt ((vV.2.emit posV (.alloca tyV)).2.emit posV
          (.store vV.1 (vV.2.emit posV (.alloca tyV)).1)).2 posV =
        blockAt vV.2 posV ++ [(vV.2.m.nextId, .alloca tyV),
          (vV.2.m.nextId + 1, .store vV.1 (.instr vV.2.m.nextId))])) ∧
    compileLetCreate fuelL sL posL vmL lmL =
      .ok (vL.2, vmInsert qL.1 (tyL, vL.1, false) lmL) ∧
    (compileExpression (fuelR + 1) sR posR vmR lmR rnR =
      .ok (.instr sR.m.nextId, (sR.next.emit posR (.load tyR slotR)).2) ∧
      (posValid sR posR →
        blockAt ((sR.next.emit posR (.load tyR slotR)).2) posR =
        blockAt sR posR ++ [(sR.m.nextId, .load tyR slotR)])) ∧
    compileExpression (fuelD + 1) sD posD vmD lmD rnD = .ok (vD, sD.next) := by
  refine ⟨⟨?_, ?_⟩, ?_, ⟨?_, ?_⟩, ?_⟩
  · unfold compileVarCreate
    rw [h1, Res.ok_bind, h2, Res.ok_bind, h3, Res.ok_bind, h4, Res.ok_bind,
      h5, Res.ok_bind]
    rfl
  · intro hv
    rw [blockAt_emit _ _ _ (posValid_emit _ _ _ hv), blockAt_emit _ _ _ hv]
    simp [List.append_assoc, St.emit]
  · unfold compileLetCreate
    rw [h6, Res.ok_bind, h7, Res.ok_bind, h8, Res.ok_bind, h9, Res.ok_bind,
      h10, Res.ok_bind]
    rfl
  · have hid : identNext sR "[call|literal|<variable>]" = .ok (xR, sR.next) := by
      unfold identNext St.this
      rw [h11]
    simp only [compileExpression]
    rw [hid, Res.ok_bind]
    rw [if_neg h12, if_neg h13]
    rw [h14, Res.ok_bind, h15, Res.ok_bind]
    rw [if_pos rfl]
    rfl
  · intro hv
    exact blockAt_emit sR.next posR (.load tyR slotR) hv
  · have hid : identNext sD "[call|literal|<variable>]" = .ok (xD, sD.next) := by
      unfold identNext St.this
      rw [h16]
    simp only [compileExpression]
    rw [hid, Res.ok_bind]
    rw [if_neg h17, if_neg h18]
    rw [h19, Res.ok_bind, h20, Res.ok_bind]
    rw [if_neg (by decide : ¬(false = true))]
    rfl

/-- Projection for expression-compilation results. -/
def resExprOf (r : Res (Value × St)) : Value × St :=
  match r with
  | .ok p => p
  | _ => (Value.instr 0, ⟨[], 0, testMod⟩)

/-- Tokens of `var i32 v is literal i32 7`, after the `var` keyword. -/
def c6sV : St :=
  ⟨[ti "i32", ti "v", ti "is", ti "literal", ti "i32",
    ⟨.Literal (.num (.Integer 7)), 0⟩], 0, testMod⟩

/-- The state and value of the compiled initializer of `c6sV`. -/
def c6vV : Value × St :=
  resExprOf (compileExpression 8 c6sV.next.next.next (0, 0) [] [] "v")

/-- Tokens of `let i32 w be literal i32 7`, after the `let` keyword. -/
def c6sL : St :=
  ⟨[ti "i32", ti "w", ti "be", ti "literal", ti "i32",
    ⟨.Literal (.num (.Integer 7)), 0⟩], 0, testMod⟩

/-- The state and value of the compiled initializer of `c6sL`. -/
def c6vL : Value × St :=
  resExprOf (compileExpression 8 c6sL.next.next.next (0, 0) [] [] "w")

/-- Expression tokens reading the variable `v`. -/
def c6sR : St := ⟨[ti "v", ti "z"], 0, testMod⟩

/-- Local environment holding the addressable binding `v`. -/
def c6lmR : VMap := [("v", (IRType.i32, Value.param 3 0, true))]

/-- Expression tokens reading the variable `w`. -/
def c6sD : St := ⟨[ti "w", ti "z"], 0, testMod⟩

/-- Local environment holding the direct binding `w`. -/
def c6lmD : VMap := [("w", (IRType.i32, Value.constInt .i32 9, false))]

/-- Witness for C6 at concrete `var`/`let` creations and reads. -/
theorem var_let_addressability_witness :
    compileVarCreate 8 c6sV (0, 0) [] [] =
      .ok (((c6vV.2.emit (0, 0) (.alloca .i32)).2.emit (0, 0)
          (.store c6vV.1 (c6vV.2.emit (0, 0) (.alloca .i32)).1)).2,
        vmInsert "v" (.i32, (c6vV.2.emit (0, 0) (.alloca .i32)).1, true) []) ∧
    compileLetCreate 8 c6sL (0, 0) [] [] =
      .ok (c6vL.2, vmInsert "w" (.i32, c6vL.1, false) []) ∧
    compileExpression 9 c6sR (0, 0) [] c6lmR "" =
      .ok (.instr 0, (c6sR.next.emit (0, 0) (.load .i32 (.param 3 0))).2) ∧
    compileExpression 9 c6sD (0, 0) [] c6lmD "" =
      .ok (.constInt .i32 9, c6sD.next) := by
  obtain ⟨⟨hA, _⟩, hB, ⟨hC, _⟩, hD⟩ :=
    var_let_addressability 8 c6sV (0, 0) [] [] ("i32", c6sV.next) .i32
      ("v", c6sV.next.next) c6sV.next.next.next c6vV rfl rfl rfl rfl (by rfl)
      8 c6sL (0, 0) [] [] ("i32", c6sL.next) .i32 ("w", c6sL.next.next)
      c6sL.next.next.next c6vL rfl rfl rfl rfl (by rfl)
      8 c6sR (0, 0) [] c6lmR "" "v" 0 (ti "z") .i32 (.param 3 0)
      rfl (by decide) (by decide) rfl rfl
      8 c6sD (0, 0) [] c6lmD "" "w" 0 (ti "z") .i32 (.constInt .i32 9)
      rfl (by decide) (by decide) rfl rfl
  exact ⟨hA, hB, hC, hD⟩

/-! ### Claim C7 -/

/-- Token stream of `literal i128 <2^64>`. -/
def stLitI128 : St :=
  ⟨[ti "i128", ⟨.Literal (.num (.Integer (2 ^ (64 : Nat)))), 0⟩], 0, testMod⟩

/-- C7 counterexample: the integer literal `2^64` at type `i128` is emitted as
the constant 0 — the value is NOT reduced modulo `2^128` (which would give
`2^64` back); the upper 64 bits of an i128 literal are lost. -/
theorem compile_literal_i128_cex :
    (compileLiteral stLitI128 (0, 0) [] []).toOption.map (fun r => r.1) =
      some (Value.constInt .i128 0) ∧
    ¬((2 ^ (64 : Nat) : Int) % 2 ^ (128 : Nat) = 0) := by
  refine ⟨rfl, ?_⟩
  norm_num

/-- C7 (amended): for an integer literal `literal <T> <n>`, the emitted constant
is obtained by first truncating the i128 literal value to 64 bits (the Rust
`as c_ulonglong` cast) and then reducing into the width of the requested type.
For the types of width at most 64 (bool, i8, i32, i64) this equals the literal
value modulo `2^width(T)`, as the claim states; for `i128`, however, the
constant equals the value modulo `2^64` — the upper 64 bits are not preserved. -/
theorem compile_literal_int_truncation (s : St) (pos : Nat × Nat)
    (vm lm : VMap) (T : String) (ty : IRType) (i : Int) (l1 l2 : Nat)
    (h1 : s.toks[s.idx]? = some ⟨.Ident T, l1⟩)
    (h2 : tyStrToTy T = .ok ty)
    (h3 : s.toks[s.idx + 1]? = some ⟨.Literal (.num (.Integer i)), l2⟩) :
    compileLiteral s pos vm lm =
      .ok (.constInt ty (intAsU64 i % 2 ^ ty.width), s.next.next) ∧
    (ty.width ≤ 64 → ((intAsU64 i % 2 ^ ty.width : Nat) : Int) = i % 2 ^ ty.width) ∧
    (ty = .i128 → intAsU64 i % 2 ^ ty.width = intAsU64 i ∧
      ((intAsU64 i : Nat) : Int) = i % 2 ^ (64 : Nat)) := by
  have ha : (0 : Int) ≤ i % 2 ^ (64 : Nat) :=
    Int.emod_nonneg i (by positivity)
  have hlt : i % 2 ^ (64 : Nat) < (2 : Int) ^ (64 : Nat) :=
    Int.emod_lt_of_pos i (by positivity)
  have hcast : ((intAsU64 i : Nat) : Int) = i % 2 ^ (64 : Nat) := by
    unfold intAsU64
    exact Int.toNat_of_nonneg ha
  refine ⟨?_, ?_, ?_⟩
  · have hid : identNext s "type" = .ok (T, s.next) := by
      unfold identNext St.this
      rw [h1]
    have hth : s.next.this = .ok ⟨.Literal (.num (.Integer i)), l2⟩ := by
      unfold St.this
      show (match s.toks[s.idx + 1]? with
        | some t => Res.ok t
        | none => Res.err ParseET.UnexpectedEOF.toErr) = _
      rw [h3]
    unfold compileLiteral
    rw [hid, Res.ok_bind, h2, Res.ok_bind, hth, Res.ok_bind]
    rfl
  · intro hw
    have hdvd : ((2 : Int) ^ ty.width) ∣ (2 : Int) ^ (64 : Nat) :=
      pow_dvd_pow 2 hw
    push_cast
    rw [hcast]
    rw [Int.emod_emod_of_dvd i hdvd]
  · intro hty
    constructor
    · apply Nat.mod_eq_of_lt
      have h64 : intAsU64 i < 2 ^ (64 : Nat) := by
        unfold intAsU64
        rw [Int.toNat_lt ha]
        exact_mod_cast hlt
      calc intAsU64 i < 2 ^ (64 : Nat) := h64
        _ ≤ 2 ^ ty.width := by rw [hty]; norm_num [IRType.width]
    · exact hcast

/-- Token stream of `literal i32 300`. -/
def stLitI32 : St :=
  ⟨[ti "i32", ⟨.Literal (.num (.Integer 300)), 0⟩], 0, testMod⟩

/-- Witness for C7 at `literal i32 300`. -/
theorem compile_literal_int_truncation_witness :
    compileLiteral stLitI32 (0, 0) [] [] =
      .ok (.constInt .i32 (intAsU64 300 % 2 ^ IRType.i32.width),
        stLitI32.next.next) ∧
    ((intAsU64 300 % 2 ^ IRType.i32.width : Nat) : Int) = 300 % 2 ^ IRType.i32.width := by
  obtain ⟨hA, hB, _⟩ := compile_literal_int_truncation stLitI32 (0, 0) [] []
    "i32" .i32 300 0 0 rfl rfl rfl
  exact ⟨hA, hB (by norm_num [IRType.width])⟩

/-! ### Claim C8 -/

/-- Token stream of `literal i32 x` — the token after the type is an identifier,
not a literal. -/
def stLitBad : St := ⟨[ti "i32", ti "x"], 0, testMod⟩

/-- C8 counterexample: `literal` followed by a non-literal token does not return
a structured error — it aborts the process (the `panic!` in `compile_literal`). -/
theorem compile_literal_nonliteral_cex :
    compileLiteral stLitBad (0, 0) [] [] =
      .abort "literal value is not a literal value" ∧
    ∀ e, compileLiteral stLitBad (0, 0) [] [] ≠ .err e := by
  refine ⟨rfl, fun e h => ?_⟩
  exact Res.noConfusion ((rfl : compileLiteral stLitBad (0, 0) [] [] =
    .abort "literal value is not a literal value").symm.trans h)

/-- C8 (amended): when the token following `literal <type>` (with a valid type
keyword) is not a literal token, compilation aborts the process with the panic
message `literal value is not a literal value` instead of returning a structured
`MalformedLiteral` error value. -/
theorem compile_literal_nonliteral_aborts (s : St) (pos : Nat × Nat)
    (vm lm : VMap) (T : String) (ty : IRType) (l1 : Nat) (tok : Token)
    (h1 : s.toks[s.idx]? = some ⟨.Ident T, l1⟩)
    (h2 : tyStrToTy T = .ok ty)
    (h3 : s.next.this = .ok tok)
    (h4 : ∀ lit, tok.tt ≠ .Literal lit) :
    compileLiteral s pos vm lm = .abort "literal value is not a literal value" := by
  have hid : identNext s "type" = .ok (T, s.next) := by
    unfold identNext St.this
    rw [h1]
  unfold compileLiteral
  rw [hid, Res.ok_bind, h2, Res.ok_bind, h3, Res.ok_bind]
  cases htt : tok.tt with
  | Literal lit => exact absurd htt (h4 lit)
  | Ident a => rfl
  | Particle a b => rfl

/-- Witness for C8 at the concrete `literal i32 x` input. -/
theorem compile_literal_nonliteral_aborts_witness :
    compileLiteral stLitBad (0, 0) [] [] =
      .abort "literal value is not a literal value" :=
  compile_literal_nonliteral_aborts stLitBad (0, 0) [] [] "i32" .i32 0
    (ti "x") rfl rfl rfl (fun lit h => by simp [ti] at h)

/-! ### Claim C9 -/

theorem fnCallLower_particle_pops (ar : List Value × St) (pos : Nat × Nat)
    (vm lm : VMap) (p : Char) (pj : Bool) (nm : String) (pre : List Value)
    (a b : Value) (ins : Instr)
    (hpr : ar.1 = pre ++ [a, b]) (hop : opInstr nm a b = .ok ins) :
    fnCallLower ar pos vm lm (.Particle p pj) nm =
      .ok ((ar.2.emit pos ins).1, (ar.2.emit pos ins).2) := by
  have hsplit : ar.1 = (pre ++ [a]) ++ [b] := by rw [hpr]; simp
  have hg1 : ar.1.getLast? = some b := by
    rw [hsplit]
    exact List.getLast?_concat _
  have hg2 : ar.1.dropLast.getLast? = some a := by
    rw [hsplit, List.dropLast_concat]
    exact List.getLast?_concat _
  unfold fnCallLower
  simp only [hg1, hg2, hop, Res.ok_bind]
  rfl

/-- C9: in an operator-form call (`call <op> ... end`), the two operands are
POPPED from the parsed argument list: the last parsed argument becomes the
right-hand operand and the one before it the left-hand operand.  With fewer than
two arguments the corresponding `expect` aborts the process (no structured
error); with more than two, the extra earlier arguments remain compiled in the
state `ar.2` (their side effects were emitted by the argument loop) but their
values do not appear in the emitted operator instruction — they are discarded. -/
theorem operator_call_pops_last_two (fuel : Nat) (s : St) (pos : Nat × Nat)
    (vm lm : VMap) (rn : String) (p : Char) (pj : Bool) (l1 l2 : Nat)
    (ar : List Value × St)
    (h1 : s.toks[s.idx]? = some ⟨.Particle p pj, l1⟩)
    (h2 : s.toks[s.idx + 1]? = some ⟨.Ident "with", l2⟩)
    (h3 : fnCallArgs (fuel + 1) s.next.next pos vm lm [] = .ok ar) :
    (ar.1 = [] → compileFnCall (fuel + 2) s pos vm lm rn =
      .abort ("no arg 1 for bin op " ++ String.singleton p)) ∧
    (∀ a, ar.1 = [a] → compileFnCall (fuel + 2) s pos vm lm rn =
      .abort ("no arg 2 for binary op " ++ String.singleton p)) ∧
    (∀ pre a b ins, ar.1 = pre ++ [a, b] →
      opInstr (String.singleton p) a b = .ok ins →
      compileFnCall (fuel + 2) s pos vm lm rn =
        .ok ((ar.2.emit pos ins).1, (ar.2.emit pos ins).2)) := by
  have hthis : s.this = .ok ⟨.Particle p pj, l1⟩ := by
    unfold St.this
    rw [h1]
  have hth2 : s.next.this = .ok ⟨.Ident "with", l2⟩ := by
    unfold St.this
    show (match s.toks[s.idx + 1]? with
      | some t => Res.ok t
      | none => Res.err ParseET.UnexpectedEOF.toErr) = _
    rw [h2]
  have hname : fnCallName (fuel + 1) s (TokenType.Particle p pj) =
      .ok (String.singleton p, s.next) := by
    unfold fnCallName
    simp only [particleLoop]
    rw [hth2, Res.ok_bind]
    rfl
  have hid2 : identNext s.next "[with|end]" = .ok ("with", s.next.next) := by
    unfold identNext
    rw [hth2]
  have hmain : compileFnCall (fuel + 2) s pos vm lm rn =
      fnCallLower ar pos vm lm (.Particle p pj) (String.singleton p) := by
    simp only [compileFnCall]
    rw [hthis, Res.ok_bind, hname, Res.ok_bind, hid2, Res.ok_bind,
      if_pos rfl, h3, Res.ok_bind]
  refine ⟨?_, ?_, ?_⟩
  · intro h0
    rw [hmain]
    unfold fnCallLower
    simp only [h0]
    rfl
  · intro a h0
    rw [hmain]
    unfold fnCallLower
    simp only [h0]
    rfl
  · intro pre a b ins hpr hop
    rw [hmain]
    exact fnCallLower_particle_pops ar pos vm lm p pj _ pre a b ins hpr hop

/-- The operator call `call + with x1 x2 x3 end` over three addressable globals
`x1 x2 x3` (each argument read emits a load). -/
def c9st : St :=
  ⟨[⟨.Particle '+' false, 0⟩, ti "with", ti "x1", ti "x2", ti "x3", ti "end"],
   0, testMod⟩

/-- Global environment with three addressable bindings for `c9st`. -/
def c9vm : VMap :=
  [("x1", (IRType.i32, Value.param 0 0, true)),
   ("x2", (IRType.i32, Value.param 0 1, true)),
   ("x3", (IRType.i32, Value.param 0 2, true))]

/-- The parsed argument list and state of `c9st` (three loads, ids 0, 1, 2). -/
def c9args : List Value × St :=
  match fnCallArgs 9 c9st.next.next (0, 0) c9vm [] [] with
  | .ok p => p
  | _ => ([], ⟨[], 0, testMod⟩)

/-- Witness for C9: with three arguments, the emitted `add` consumes exactly the
last two argument values (the loads with ids 1 and 2); the first argument's load
(id 0) was emitted but its value is discarded. -/
theorem operator_call_pops_last_two_witness :
    compileFnCall 10 c9st (0, 0) c9vm [] "" =
      .ok ((c9args.2.emit (0, 0) (.add (.instr 1) (.instr 2))).1,
        (c9args.2.emit (0, 0) (.add (.instr 1) (.instr 2))).2) := by
  have h := (operator_call_pops_last_two 8 c9st (0, 0) c9vm [] "" '+' false 0 0
    c9args rfl rfl (by rfl)).2.2
  exact h [.instr 0] (.instr 1) (.instr 2) _ (by rfl) (by rfl)

/-! ### Claim C10 -/

/-- C10: for a function defined with `fn` and no declared return type, after the
body loop finishes (at the closing `end` token) a void return is emitted
UNCONDITIONALLY at the current insertion point — the code never inspects whether
the body already terminated the block (e.g. with an explicit `return`), so a
body ending in `return end` receives a second `ret void` after the explicit
one (see the witness, whose final block is exactly two `ret void`s). -/
theorem compileFn_appends_void_return (fuel : Nat) (s : St) (vm : VMap)
    (sig : (String × Option String × List (String × String) × Bool) × St)
    (retTy : IRType) (ptys : List IRType) (fi : FnIntro)
    (body : St × (Nat × Nat) × VMap) (s2 : St)
    (hsig : fnSig fuel s = .ok sig)
    (hnone : sig.1.2.1 = none)
    (hret : tyStrToTy (sig.1.2.1.getD "void") = .ok retTy)
    (hp : tyListUnwrap sig.1.2.2.1 = .ok ptys)
    (hfi : fi = fnIntro sig.2 vm sig.1.1 retTy ptys sig.1.2.2.2
      (sig.1.2.2.1.map (fun a => a.2)))
    (hbody : fnBodyLoop fuel fi.st (fi.fIdx, fi.entry) fi.fIdx fi.vm fi.lm =
      .ok body)
    (hend : expectIdent (body.1.emit body.2.1 .retVoid).2 "end" = .ok s2) :
    compileFn fuel s vm = .ok (s2, fi.vm) ∧
    (posValid body.1 body.2.1 →
      blockAt (body.1.emit body.2.1 .retVoid).2 body.2.1 =
        blockAt body.1 body.2.1 ++ [(body.1.m.nextId, .retVoid)]) := by
  constructor
  · simp only [compileFn]
    rw [hsig]
    simp only [Res.ok_bind]
    rw [hret]
    simp only [Res.ok_bind]
    rw [hp]
    simp only [Res.ok_bind]
    rw [← hfi, hbody]
    simp only [Res.ok_bind]
    rw [if_pos hnone, hend]
    simp only [Res.ok_bind]
    rfl
  · intro hv
    exact blockAt_emit _ _ _ hv

/-- The token stream of `fn f do return end end` over a fresh module. -/
def stFnRet : St :=
  ⟨[ti "fn", ti "f", ti "do", ti "return", ti "end", ti "end"],
   0, initModule "x"⟩

/-- The `FnIntro` state of `stFnRet`. -/
def c10fi : FnIntro := fnIntro stFnRet.next.next.next [] "f" .void [] false []

/-- The body-loop result of `stFnRet`. -/
def c10body : St × (Nat × Nat) × VMap :=
  match fnBodyLoop 16 c10fi.st (c10fi.fIdx, c10fi.entry) c10fi.fIdx
      c10fi.vm c10fi.lm with
  | .ok p => p
  | _ => (⟨[], 0, testMod⟩, (0, 0), [])

/-- The final state of compiling `stFnRet`. -/
def c10s2 : St :=
  match expectIdent (c10body.1.emit c10body.2.1 .retVoid).2 "end" with
  | .ok p => p
  | _ => ⟨[], 0, testMod⟩

/-- Witness for C10 at `fn f do return end end`: compilation succeeds, and the
compiled function's entry block holds two `ret void`s — the explicit one and
the unconditionally appended one. -/
theorem compileFn_appends_void_return_witness :
    compileFn 16 stFnRet [] = .ok (c10s2, c10fi.vm) ∧
    blockAt c10s2 (1, 0) = [(1, .retVoid), (2, .retVoid)] := by
  obtain ⟨hA, _⟩ := compileFn_appends_void_return 16 stFnRet []
    (("f", none, [], false), stFnRet.next.next.next) .void [] c10fi c10body
    c10s2 (by rfl) rfl rfl rfl rfl (by rfl) (by rfl)
  exact ⟨hA, rfl⟩
